import Mathlib

/-!
# Keymap extension: runtime (content.js) and editor (options.js)

A shallow embedding of the key-remapping runtime and of the configuration
editor, and the properties of the specification proved or refuted on it.

Strings are lists of Unicode scalar values (`Str`).  A JavaScript string is a
sequence of UTF-16 code units; every well-formed one is such a list, and its
JavaScript length is `jsLength` (a character outside the basic plane counts
for two units).  The two operations of the host that depend on large
standard tables, Unicode case mapping and URL parsing, are the fields of
`Builtins`; every definition that uses them takes them as an argument, and
the theorems hold for every choice of them.
-/

set_option exponentiation.threshold 1100

namespace KeymapExtension

/-- A JavaScript string, as the list of its characters. -/
abbrev Str := List Char

/-- The operations of the host taken as given: `String.prototype.toLowerCase`,
`String.prototype.toUpperCase`, and the `hostname` of `new URL(s)`, which is
`none` when the constructor throws. -/
structure Builtins where
  toLowerCase : Str → Str
  toUpperCase : Str → Str
  urlHostname : Str → Option Str

/-- The `length` of a string: the number of its UTF-16 code units. -/
def jsLength (s : Str) : Nat :=
  (s.map fun c => if c.toNat < 65536 then 1 else 2).sum

/-- The characters ECMAScript calls WhiteSpace or LineTerminator: what
`trim` removes and what the numeric-string grammar skips. -/
def isWhiteSpace (c : Char) : Bool :=
  let n := c.toNat
  (9 ≤ n && n ≤ 13) || n == 32 || n == 160 || n == 5760 ||
  (8192 ≤ n && n ≤ 8202) || n == 8232 || n == 8233 || n == 8239 ||
  n == 8287 || n == 12288 || n == 65279

/-- The characters ECMAScript calls LineTerminator, which `.` in a regular
expression does not match. -/
def isLineTerminator (c : Char) : Bool :=
  let n := c.toNat
  n == 10 || n == 13 || n == 8232 || n == 8233

/-- `String.prototype.trim`. -/
def trim (s : Str) : Str :=
  ((s.dropWhile isWhiteSpace).reverse.dropWhile isWhiteSpace).reverse

/-- `s.startsWith(p)`. -/
def startsWith (s p : Str) : Bool :=
  p.isPrefixOf s

/-- `s.endsWith(p)`. -/
def endsWith (s p : Str) : Bool :=
  p.reverse.isPrefixOf s.reverse

/-- `parts.join(sep)` on an array of strings. -/
def join (sep : Str) : List Str → Str
  | [] => []
  | [x] => x
  | x :: y :: rest => x ++ sep ++ join sep (y :: rest)

/-- Whether `needle` occurs somewhere in `s`: `/needle/.test(s)` for a
pattern of literal characters. -/
def includesText (s needle : Str) : Bool :=
  s.tails.any fun t => needle.isPrefixOf t

/-! ### `isNaN` on a string: the StringNumericLiteral grammar -/

/-- A decimal digit. -/
def isDecimalDigit (c : Char) : Bool :=
  48 ≤ c.toNat && c.toNat ≤ 57

/-- A hexadecimal digit. -/
def isHexDigit (c : Char) : Bool :=
  isDecimalDigit c || (65 ≤ c.toNat && c.toNat ≤ 70) || (97 ≤ c.toNat && c.toNat ≤ 102)

/-- DecimalDigits: one or more decimal digits. -/
def isDecimalDigits (s : Str) : Bool :=
  !s.isEmpty && s.all isDecimalDigit

/-- An optional ExponentPart: nothing, or `e`/`E`, an optional sign and
DecimalDigits. -/
def isOptExponent : Str → Bool
  | [] => true
  | c :: rest =>
    (c == 'e' || c == 'E') &&
      (match rest with
        | '+' :: ds => isDecimalDigits ds
        | '-' :: ds => isDecimalDigits ds
        | ds => isDecimalDigits ds)

/-- StrUnsignedDecimalLiteral. -/
def isUnsignedDecimal (s : Str) : Bool :=
  s == "Infinity".toList ||
    (let whole := s.takeWhile isDecimalDigit
     match s.dropWhile isDecimalDigit with
      | '.' :: rest =>
        let frac := rest.takeWhile isDecimalDigit
        (!whole.isEmpty || !frac.isEmpty) && isOptExponent (rest.dropWhile isDecimalDigit)
      | rest => !whole.isEmpty && isOptExponent rest)

/-- StrNumericLiteral: a signed decimal literal, or an unsigned binary, octal
or hexadecimal integer literal. -/
def isNumericLiteral : Str → Bool
  | '0' :: 'x' :: ds => !ds.isEmpty && ds.all isHexDigit
  | '0' :: 'X' :: ds => !ds.isEmpty && ds.all isHexDigit
  | '0' :: 'o' :: ds => !ds.isEmpty && ds.all fun c => 48 ≤ c.toNat && c.toNat ≤ 55
  | '0' :: 'O' :: ds => !ds.isEmpty && ds.all fun c => 48 ≤ c.toNat && c.toNat ≤ 55
  | '0' :: 'b' :: ds => !ds.isEmpty && ds.all fun c => c == '0' || c == '1'
  | '0' :: 'B' :: ds => !ds.isEmpty && ds.all fun c => c == '0' || c == '1'
  | '+' :: ds => isUnsignedDecimal ds
  | '-' :: ds => isUnsignedDecimal ds
  | ds => isUnsignedDecimal ds

/-- `isNaN(s)` for a string `s`: the string is converted with
StringToNumber, which gives NaN exactly when the trimmed string is neither
empty nor a StrNumericLiteral. -/
def isNaN (s : Str) : Bool :=
  let t := trim s
  !(t.isEmpty || isNumericLiteral t)

/-! ### Data model -/

/-- The four modifier flags of a keyboard event. -/
structure Modifiers where
  ctrlKey : Bool
  shiftKey : Bool
  altKey : Bool
  metaKey : Bool
deriving DecidableEq, Repr, Inhabited

/-- The fields of a `keydown` event the program reads. -/
structure KeyEvent extends Modifiers where
  key : Str
  code : Str
  keyCode : Nat
  which : Nat
deriving DecidableEq, Repr, Inhabited

/-- A stored key record (`keyInfo`): the fields captured from an event and,
for a step of a sequence, an optional `delay` in milliseconds, an integer
(the editor can store a negative one). -/
structure KeyInfo extends KeyEvent where
  delay : Option Int
deriving DecidableEq, Repr, Inhabited

/-- The value of a mapping: one key record, or a sequence of them. -/
inductive Target where
  | single (keyInfo : KeyInfo)
  | sequence (steps : List KeyInfo)
deriving DecidableEq, Repr, Inhabited

/-- The configuration object: its `websites` array and the own properties of
its `mappings` object, in creation order. -/
structure Config where
  websites : List Str
  mappings : List (Str × Target)
deriving DecidableEq, Repr

/-- The default configuration held before anything is loaded. -/
def Config.default : Config :=
  { websites := [], mappings := [] }

/-- The platform part of `getKeyIdentifier`:
`/Mac|iPod|iPhone|iPad/.test(navigator.platform)`. -/
def isMac (platform : Str) : Bool :=
  includesText platform "Mac".toList || includesText platform "iPod".toList ||
  includesText platform "iPhone".toList || includesText platform "iPad".toList

/-- The `modifierNames` table of `getKeyIdentifier`. -/
def modifierNames (mac : Bool) : Str × Str × Str × Str :=
  (if mac then "Control".toList else "Ctrl".toList,
   "Shift".toList,
   if mac then "Option".toList else "Alt".toList,
   if mac then "Command".toList else "Win".toList)

namespace Content

/-- The first replacement of `normalizeDomain`, by the pattern
`^https?:\/\/`: a leading `http://` or `https://` is removed. -/
def stripScheme (s : Str) : Str :=
  if startsWith s "https://".toList then s.drop 8
  else if startsWith s "http://".toList then s.drop 7
  else s

/-- The second replacement of `normalizeDomain`, by the pattern `\/.*$`:
the text is cut at the first `/` after which no line terminator occurs (the
dot of the pattern matches no line terminator, and `$` only the end). -/
def stripPath : Str → Str
  | [] => []
  | c :: rest =>
    if c == '/' && !(rest.any isLineTerminator) then [] else c :: stripPath rest

/-- The function `normalizeDomain` of content.js. -/
def normalizeDomain (env : Builtins) (domain : Str) : Str :=
  stripPath (stripScheme (trim (env.toLowerCase domain)))

/-- The function `getKeyIdentifier(event)` of content.js; `platform` is
`navigator.platform`. -/
def getKeyIdentifier (env : Builtins) (platform : Str) (event : KeyEvent) : Str :=
  let names := modifierNames (isMac platform)
  let keyName := event.key
  let keyName :=
    if (match keyName with
        | 'F' :: rest => !(isNaN rest)
        | _ => false) then keyName
    else if jsLength keyName == 1 then env.toUpperCase keyName
    else keyName
  let modifiers :=
    [if event.ctrlKey then names.1 else [],
     if event.shiftKey then names.2.1 else [],
     if event.altKey then names.2.2.1 else [],
     if event.metaKey then names.2.2.2 else []].filter fun m => !m.isEmpty
  join "+".toList (modifiers ++ [keyName])

/-- The variables of content.js: `configLoaded`, `config`, whether the
`keydown` listener is attached (`keydownListener`), and the period of the
armed retry interval, if one is armed (`retryInterval`). -/
structure State where
  configLoaded : Bool
  config : Config
  keydownListener : Bool
  retryInterval : Option Nat
deriving DecidableEq, Repr

/-- The variables as the script leaves them before `initializeConfig` runs. -/
def State.initial : State :=
  { configLoaded := false, config := Config.default, keydownListener := false,
    retryInterval := none }

/-- The function `isWebsiteEnabled` of content.js; `hostname` is
`window.location.hostname`. -/
def isWebsiteEnabled (env : Builtins) (st : State) (hostname : Str) : Bool :=
  if !st.configLoaded then false
  else
    let currentHostname := env.toLowerCase hostname
    st.config.websites.any fun website =>
      let normalizedWebsite := normalizeDomain env website
      currentHostname == normalizedWebsite ||
        endsWith currentHostname (".".toList ++ normalizedWebsite)

/-- The three kinds of synthetic event. -/
inductive EventType where
  | keydown
  | keypress
  | keyup
deriving DecidableEq, Repr

/-- What a replay does, in order: a call of `document.dispatchEvent`, a call
of `document.activeElement.dispatchEvent`, or a `setTimeout` wait of the
given number of milliseconds.  What the listeners of a dispatched event do
is not part of the trace. -/
inductive Effect where
  | dispatchDocument (type : EventType) (event : KeyEvent)
  | dispatchActiveElement (type : EventType) (event : KeyEvent)
  | wait (ms : Int)
deriving DecidableEq, Repr

/-- The names of the properties every plain object inherits from
`Object.prototype`; the value of each is a function or an object. -/
def objectPrototypeNames : List Str :=
  ["constructor".toList, "__defineGetter__".toList, "__defineSetter__".toList,
   "hasOwnProperty".toList, "__lookupGetter__".toList, "__lookupSetter__".toList,
   "isPrototypeOf".toList, "propertyIsEnumerable".toList, "toString".toList,
   "valueOf".toList, "__proto__".toList, "toLocaleString".toList]

/-- The result of the property read `config.mappings[pressedKey]`: an own
property of the table, a member inherited from `Object.prototype`, or
`undefined`. -/
inductive Lookup where
  | own (target : Target)
  | inherited
  | undefined
deriving DecidableEq, Repr

/-- The property read `mappings[key]` on the mapping table, a plain object. -/
def getProperty (mappings : List (Str × Target)) (key : Str) : Lookup :=
  match mappings.lookup key with
  | some target => Lookup.own target
  | none => if key ∈ objectPrototypeNames then Lookup.inherited else Lookup.undefined

/-- The function `createKeyboardEvent`: the fields of the synthetic event.
The argument is `none` for a value that has none of the key fields (a member
of `Object.prototype`), whose reads give `undefined` and so the defaults of
the event constructor. -/
def createKeyboardEvent (keyInfo : Option KeyInfo) : KeyEvent :=
  match keyInfo with
  | some k => k.toKeyEvent
  | none =>
    { ctrlKey := false, shiftKey := false, altKey := false, metaKey := false,
      key := [], code := [], keyCode := 0, which := 0 }

/-- The function `executeKeyMapping`: for each of the three events, dispatch
to the document, dispatch to the focused element if there is one, wait 10 ms. -/
def executeKeyMapping (hasActiveElement : Bool) (mapping : Option KeyInfo) : List Effect :=
  [EventType.keydown, EventType.keypress, EventType.keyup].flatMap fun type =>
    [Effect.dispatchDocument type (createKeyboardEvent mapping)] ++
    (if hasActiveElement then [Effect.dispatchActiveElement type (createKeyboardEvent mapping)]
     else []) ++
    [Effect.wait 10]

/-- The wait after a step of a sequence, `step.delay || 50`: the delay when
it is present and not zero, and 50 otherwise. -/
def stepDelay (step : KeyInfo) : Int :=
  match step.delay with
  | some d => if d = 0 then 50 else d
  | none => 50

/-- The function `executeKeySequence`. -/
def executeKeySequence (hasActiveElement : Bool) (sequence : List KeyInfo) : List Effect :=
  sequence.flatMap fun step =>
    executeKeyMapping hasActiveElement (some step) ++ [Effect.wait (stepDelay step)]

/-- What `handleKeyDown` did to the event it was given, and the replay it
started, if it started one. -/
structure KeyDownResult where
  defaultPrevented : Bool
  immediatePropagationStopped : Bool
  replay : Option (List Effect)
deriving DecidableEq, Repr

/-- The result of a call that returns before touching the event. -/
def KeyDownResult.untouched : KeyDownResult :=
  { defaultPrevented := false, immediatePropagationStopped := false, replay := none }

/-- The function `handleKeyDown` of content.js. -/
def handleKeyDown (env : Builtins) (platform : Str) (hasActiveElement : Bool) (st : State)
    (hostname : Str) (event : KeyEvent) : KeyDownResult :=
  if !st.configLoaded || !(isWebsiteEnabled env st hostname) then KeyDownResult.untouched
  else
    let pressedKey := getKeyIdentifier env platform event
    match getProperty st.config.mappings pressedKey with
    | Lookup.undefined => KeyDownResult.untouched
    | Lookup.own (Target.sequence steps) =>
      { defaultPrevented := true, immediatePropagationStopped := true,
        replay := some (executeKeySequence hasActiveElement steps) }
    | Lookup.own (Target.single keyInfo) =>
      { defaultPrevented := true, immediatePropagationStopped := true,
        replay := some (executeKeyMapping hasActiveElement (some keyInfo)) }
    | Lookup.inherited =>
      { defaultPrevented := true, immediatePropagationStopped := true,
        replay := some (executeKeyMapping hasActiveElement none) }

/-- The value a failed read of the store rejects with: an error object, or
`null`/`undefined`, on which the property reads of the `catch` block of
`initializeConfig` throw. -/
inductive Rejection where
  | errorObject
  | nullish
deriving DecidableEq, Repr

/-- The outcome of `chrome.storage.sync.get(['keyMapperConfig'])`. -/
inductive StorageRead where
  | found (config : Config)
  | missing
  | failed (reason : Rejection)
deriving DecidableEq, Repr

/-- How the promise of an `async` function settles. -/
inductive Completion where
  | resolved
  | rejected
deriving DecidableEq, Repr

/-- The function `initializeConfig` of content.js, with the outcome of its
read of the store: the new variables and how the returned promise settles. -/
def initializeConfig (read : StorageRead) (st : State) : State × Completion :=
  match read with
  | StorageRead.found config =>
    ({ st with config := config, configLoaded := true, keydownListener := true },
      Completion.resolved)
  | StorageRead.missing => ({ st with keydownListener := true }, Completion.resolved)
  | StorageRead.failed Rejection.errorObject =>
    ({ st with configLoaded := false }, Completion.resolved)
  | StorageRead.failed Rejection.nullish => (st, Completion.rejected)

/-- The function `startRetryMechanism`: any armed interval is cleared and a
5000 ms interval is armed. -/
def startRetryMechanism (st : State) : State :=
  { st with retryInterval := some 5000 }

/-- One tick of the interval armed by `startRetryMechanism`, with the
outcome of the read its load attempt makes. -/
def retryTick (read : StorageRead) (st : State) : State :=
  if !st.configLoaded then (initializeConfig read st).1
  else { st with retryInterval := none }

/-- The last statement of content.js: `initializeConfig()` with its `catch`
handler, which sets `configLoaded = false` and calls `startRetryMechanism`. -/
def startup (read : StorageRead) (st : State) : State :=
  match initializeConfig read st with
  | (st1, Completion.resolved) => st1
  | (st1, Completion.rejected) => startRetryMechanism { st1 with configLoaded := false }

end Content

namespace Options

/-- The function `getKeyIdentifier(event, keyName)` of options.js. -/
def getKeyIdentifier (env : Builtins) (platform : Str) (event : Modifiers) (keyName : Str) :
    Str :=
  let names := modifierNames (isMac platform)
  let keyName :=
    if (match keyName with
        | 'F' :: rest => !(isNaN rest)
        | _ => false) then keyName
    else if jsLength keyName == 1 then env.toUpperCase keyName
    else keyName
  let modifiers :=
    [if event.ctrlKey then names.1 else [],
     if event.shiftKey then names.2.1 else [],
     if event.altKey then names.2.2.1 else [],
     if event.metaKey then names.2.2.2 else []].filter fun m => !m.isEmpty
  join "+".toList (modifiers ++ [keyName])

/-- The table `ErrorTypes` of options.js. -/
inductive ErrorTypes where
  | INVALID_CONFIG
  | INVALID_WEBSITE
  | DUPLICATE_WEBSITE
  | STORAGE_ERROR
  | INVALID_MAPPING
  | DUPLICATE_MAPPING
  | INVALID_KEY_INFO
  | BACKUP_ERROR
  | RESTORE_ERROR
deriving DecidableEq, Repr

/-- A thrown value: an `AppError` with its `type`, a plain `Error`, or a
`TypeError` raised by the language itself. -/
inductive Thrown where
  | appError (type : ErrorTypes)
  | error
  | typeError
deriving DecidableEq, Repr

/-- The test at the head of `normalizeWebsite`, by the pattern
`^https?:\/\/` with the flag `i`: a leading `http://` or `https://` in any
letter case. -/
def hasScheme (website : Str) : Bool :=
  startsWith (website.map Char.toLower) "https://".toList ||
  startsWith (website.map Char.toLower) "http://".toList

/-- The function `normalizeWebsite` of options.js. -/
def normalizeWebsite (env : Builtins) (website : Str) : Except Thrown Str :=
  match env.urlHostname (if hasScheme website then website else "https://".toList ++ website) with
  | some hostname => Except.ok (env.toLowerCase hostname)
  | none => Except.error Thrown.error

/-- The variables of options.js the operations below touch: `currentConfig`,
`configModified`, and the key records held in `dataset.keyInfo` of the
elements `source-key` and `target-key`. -/
structure State where
  currentConfig : Config
  configModified : Bool
  sourceKeyInfo : Option KeyInfo
  targetKeyInfo : Option KeyInfo
deriving DecidableEq, Repr

/-- The body of `addWebsite` of options.js, run under the lock;
`inputValue` is the text of the input field.  The second component is the
error handed to `handleError`, if any. -/
def addWebsite (env : Builtins) (inputValue : Str) (st : State) : State × Option Thrown :=
  let website := trim inputValue
  if website.isEmpty then (st, some (Thrown.appError ErrorTypes.INVALID_WEBSITE))
  else
    match normalizeWebsite env website with
    | Except.error e => (st, some e)
    | Except.ok normalizedWebsite =>
      if st.currentConfig.websites.contains normalizedWebsite then
        (st, some (Thrown.appError ErrorTypes.DUPLICATE_WEBSITE))
      else
        ({ st with
            currentConfig :=
              { st.currentConfig with
                websites := st.currentConfig.websites ++ [normalizedWebsite] },
            configModified := true }, none)

/-- The assignment `mappings[key] = value` on the mapping table: an own
property is overwritten in place; without one, the name `__proto__` reaches
the setter of `Object.prototype` and creates no property, and any other name
becomes a new last property. -/
def setProperty (mappings : List (Str × Target)) (key : Str) (value : Target) :
    List (Str × Target) :=
  if (mappings.lookup key).isSome then
    mappings.map fun p => if p.1 == key then (p.1, value) else p
  else if key == "__proto__".toList then mappings
  else mappings ++ [(key, value)]

/-- The statement `delete mappings[key]`. -/
def deleteProperty (mappings : List (Str × Target)) (key : Str) : List (Str × Target) :=
  mappings.filter fun p => !(p.1 == key)

/-- The function `addMapping` of options.js. -/
def addMapping (env : Builtins) (platform : Str) (st : State) : State :=
  match st.sourceKeyInfo, st.targetKeyInfo with
  | some sourceKeyInfo, some targetKeyObj =>
    let sourceKeyText :=
      getKeyIdentifier env platform sourceKeyInfo.toModifiers sourceKeyInfo.key
    { currentConfig :=
        { st.currentConfig with
          mappings :=
            setProperty st.currentConfig.mappings sourceKeyText (Target.single targetKeyObj) },
      configModified := true,
      sourceKeyInfo := none,
      targetKeyInfo := none }
  | _, _ => st

/-- The function `removeMapping` of options.js. -/
def removeMapping (source : Str) (st : State) : State :=
  { st with
    currentConfig :=
      { st.currentConfig with mappings := deleteProperty st.currentConfig.mappings source },
    configModified := true }

/-! ### The lock `configLock` -/

/-- The lock `configLock` with the callers around it.  `locked` and `queue`
are its two fields (the queue holds the suspended callers, the head first);
`woken` are the waiters whose promise `release` has resolved and whose
continuation has not run yet, in the order in which it will run; `inside`
are the callers that have returned from `acquire` and not yet called
`release`.  `arrivals` and `entered` record the order of the calls of
`acquire` and the order in which the callers returned from it. -/
structure LockState where
  locked : Bool
  queue : List Nat
  woken : List Nat
  inside : List Nat
  arrivals : List Nat
  entered : List Nat
deriving DecidableEq, Repr

/-- The lock as the script creates it, with no caller. -/
def LockState.initial : LockState :=
  { locked := false, queue := [], woken := [], inside := [], arrivals := [], entered := [] }

/-- A step of the lock: a caller invokes `acquire`, a holder invokes
`release`, or the first woken waiter resumes after its `await`. -/
inductive LockStep where
  | acquire (caller : Nat)
  | release (caller : Nat)
  | resume
deriving DecidableEq, Repr

/-- The methods `acquire` and `release` of `configLock`, as steps.  `acquire`
on a held lock pushes the caller on the queue and suspends it; otherwise it
sets `locked` and returns.  `release` clears `locked`, shifts the queue and
resolves the promise of the waiter it shifted.  A resumed waiter runs the
rest of `acquire`: it sets `locked` and returns.  A step that cannot happen
(a release by a caller that is not inside, a resume with nobody woken) gives
`none`. -/
def lockStep (s : LockState) : LockStep → Option LockState
  | LockStep.acquire c =>
    if s.locked then
      some { s with queue := s.queue ++ [c], arrivals := s.arrivals ++ [c] }
    else
      some { s with locked := true, inside := s.inside ++ [c],
                    arrivals := s.arrivals ++ [c], entered := s.entered ++ [c] }
  | LockStep.release c =>
    if s.inside.contains c then
      match s.queue with
      | [] => some { s with locked := false, inside := s.inside.erase c }
      | next :: rest =>
        some { s with locked := false, inside := s.inside.erase c, queue := rest,
                      woken := s.woken ++ [next] }
    else none
  | LockStep.resume =>
    match s.woken with
    | [] => none
    | c :: rest =>
      some { s with locked := true, woken := rest, inside := s.inside ++ [c],
                    entered := s.entered ++ [c] }

/-- A run of steps from a state. -/
def lockRun (s : LockState) : List LockStep → Option LockState
  | [] => some s
  | a :: rest =>
    match lockStep s a with
    | some s1 => lockRun s1 rest
    | none => none

/-- The states of the lock some run of steps reaches from the initial one. -/
def LockReachable (s : LockState) : Prop :=
  ∃ steps, lockRun LockState.initial steps = some s

/-! ### Validation -/

/-- A value as `JSON.parse` produces it: what `validateConfig` is called on.
An object is the list of its own properties in enumeration order.  Numbers
are modelled by integers: `num n` stands for the number `JSON.parse` reads
from the literal `n`, which is `Infinity` or `-Infinity` when `n` is too
large for a double (see `isFiniteNumber`). -/
inductive JVal where
  | null
  | bool (b : Bool)
  | num (n : Int)
  | str (s : Str)
  | arr (items : List JVal)
  | obj (props : List (Str × JVal))

/-- Whether a value is truthy. -/
def JVal.truthy : JVal → Bool
  | JVal.null => false
  | JVal.bool b => b
  | JVal.num n => n != 0
  | JVal.str s => !s.isEmpty
  | JVal.arr _ => true
  | JVal.obj _ => true

/-- The test `typeof v === 'object'`. -/
def JVal.typeofObject : JVal → Bool
  | JVal.null => true
  | JVal.arr _ => true
  | JVal.obj _ => true
  | _ => false

/-- The property read `v[name]` on an object or an array, for the names
`validateConfig` reads (none of them an index, `length` or a member of a
prototype); `none` is `undefined`. -/
def JVal.prop (v : JVal) (name : Str) : Option JVal :=
  match v with
  | JVal.obj props => props.lookup name
  | _ => none

/-- The test `name in v` on an object or an array, for the same names. -/
def JVal.hasProp (v : JVal) (name : Str) : Bool :=
  (v.prop name).isSome

/-- The call `Object.entries(v)` on a value whose `typeof` is `object`: it
throws a `TypeError` on `null`, and lists an array by its indices. -/
def objectEntries : JVal → Except Thrown (List (Str × JVal))
  | JVal.obj props => Except.ok props
  | JVal.arr items => Except.ok ((List.range items.length).map (Nat.toDigits 10) |>.zip items)
  | JVal.null => Except.error Thrown.typeError
  | _ => Except.ok []

/-- The callback of `array.forEach`, run on each item until one throws. -/
def forEach {α : Type} (f : α → Except Thrown Unit) : List α → Except Thrown Unit
  | [] => Except.ok ()
  | x :: rest =>
    match f x with
    | Except.ok _ => forEach f rest
    | Except.error e => Except.error e

/-- The check of one website in `validateConfig`. -/
def validateWebsite (env : Builtins) (website : JVal) : Except Thrown Unit :=
  match website with
  | JVal.str s =>
    if (trim s).isEmpty then Except.error (Thrown.appError ErrorTypes.INVALID_WEBSITE)
    else
      match normalizeWebsite env s with
      | Except.ok _ => Except.ok ()
      | Except.error _ => Except.error (Thrown.appError ErrorTypes.INVALID_WEBSITE)
  | _ => Except.error (Thrown.appError ErrorTypes.INVALID_WEBSITE)

/-- The two checks `validateConfig` makes on a key record, a step or a
single target: the four required properties are present, and each of
`ctrlKey`, `shiftKey`, `altKey` that is present is a boolean. -/
def validateKeyFields (v : JVal) : Except Thrown Unit :=
  match forEach (fun name =>
      if !(v.hasProp name) then Except.error (Thrown.appError ErrorTypes.INVALID_KEY_INFO)
      else Except.ok ())
    ["key".toList, "code".toList, "keyCode".toList, "which".toList] with
  | Except.error e => Except.error e
  | Except.ok _ =>
    forEach (fun name =>
      match v.prop name with
      | none => Except.ok ()
      | some (JVal.bool _) => Except.ok ()
      | some _ => Except.error (Thrown.appError ErrorTypes.INVALID_KEY_INFO))
    ["ctrlKey".toList, "shiftKey".toList, "altKey".toList]

/-- The check of one step of a sequence in `validateConfig`. -/
def validateStep (step : JVal) : Except Thrown Unit :=
  if !step.truthy || !step.typeofObject then
    Except.error (Thrown.appError ErrorTypes.INVALID_MAPPING)
  else
    match validateKeyFields step with
    | Except.error e => Except.error e
    | Except.ok _ =>
      match step.prop "delay".toList with
      | none => Except.ok ()
      | some (JVal.num d) =>
        if d < 0 then Except.error (Thrown.appError ErrorTypes.INVALID_KEY_INFO)
        else Except.ok ()
      | some _ => Except.error (Thrown.appError ErrorTypes.INVALID_KEY_INFO)

/-- The check of one entry of the mapping table in `validateConfig`. -/
def validateMapping (entry : Str × JVal) : Except Thrown Unit :=
  if entry.1.isEmpty then Except.error (Thrown.appError ErrorTypes.INVALID_MAPPING)
  else
    match entry.2 with
    | JVal.arr steps => forEach validateStep steps
    | target =>
      if !target.truthy || !target.typeofObject then
        Except.error (Thrown.appError ErrorTypes.INVALID_MAPPING)
      else validateKeyFields target

/-- The function `validateConfig` of options.js: `Except.ok true` when it
returns `true`, and the thrown value otherwise. -/
def validateConfig (env : Builtins) (config : JVal) : Except Thrown Bool :=
  if !config.truthy || !config.typeofObject then
    Except.error (Thrown.appError ErrorTypes.INVALID_CONFIG)
  else
    match config.prop "websites".toList with
    | some (JVal.arr websites) =>
      match config.prop "mappings".toList with
      | none => Except.error (Thrown.appError ErrorTypes.INVALID_CONFIG)
      | some mappings =>
        if !mappings.typeofObject then Except.error (Thrown.appError ErrorTypes.INVALID_CONFIG)
        else
          match forEach (validateWebsite env) websites with
          | Except.error e => Except.error e
          | Except.ok _ =>
            match objectEntries mappings with
            | Except.error e => Except.error e
            | Except.ok entries =>
              match forEach validateMapping entries with
              | Except.error e => Except.error e
              | Except.ok _ => Except.ok true
    | _ => Except.error (Thrown.appError ErrorTypes.INVALID_CONFIG)

end Options

namespace Options

/-! ### Saving and recovery -/

/-- The JSON form of a key record: the eight fields `captureKey` stores and,
for a step, the `delay` that `addSequenceStep` adds. -/
def keyInfoJson (k : KeyInfo) : JVal :=
  JVal.obj
    ([("key".toList, JVal.str k.key), ("code".toList, JVal.str k.code),
      ("keyCode".toList, JVal.num k.keyCode), ("which".toList, JVal.num k.which),
      ("ctrlKey".toList, JVal.bool k.ctrlKey), ("shiftKey".toList, JVal.bool k.shiftKey),
      ("altKey".toList, JVal.bool k.altKey), ("metaKey".toList, JVal.bool k.metaKey)] ++
     (match k.delay with
      | some d => [("delay".toList, JVal.num d)]
      | none => []))

/-- The JSON form of a mapping value. -/
def targetJson : Target → JVal
  | Target.single keyInfo => keyInfoJson keyInfo
  | Target.sequence steps => JVal.arr (steps.map keyInfoJson)

/-- The JSON form of a config built by the editor's operations: what
`JSON.parse(JSON.stringify(currentConfig))` gives on it. -/
def configJson (config : Config) : JVal :=
  JVal.obj
    [("websites".toList, JVal.arr (config.websites.map JVal.str)),
     ("mappings".toList, JVal.obj (config.mappings.map fun p => (p.1, targetJson p.2)))]

/-- Whether the integer stands for a finite number: a literal whose
magnitude reaches `2 ^ 1024 - 2 ^ 970` is beyond the largest double, and
`JSON.parse` reads it as `Infinity` or `-Infinity`. -/
def isFiniteNumber (n : Int) : Bool :=
  n.natAbs < 2 ^ 1024 - 2 ^ 970

mutual

/-- The copy `JSON.parse(JSON.stringify(v))` of a value: `JSON.stringify`
writes a number that is not finite as `null`, in an array and as the value
of a property alike, and everything else reads back as it was. -/
def jsonCopy : JVal → JVal
  | JVal.null => JVal.null
  | JVal.bool b => JVal.bool b
  | JVal.num n => if isFiniteNumber n then JVal.num n else JVal.null
  | JVal.str t => JVal.str t
  | JVal.arr items => JVal.arr (jsonCopyItems items)
  | JVal.obj props => JVal.obj (jsonCopyProps props)

/-- The copies of the items of an array. -/
def jsonCopyItems : List JVal → List JVal
  | [] => []
  | v :: rest => jsonCopy v :: jsonCopyItems rest

/-- The copies of the values of the properties of an object. -/
def jsonCopyProps : List (Str × JVal) → List (Str × JVal)
  | [] => []
  | (name, v) :: rest => (name, jsonCopy v) :: jsonCopyProps rest

end

/-- The editor and the persistent store, for saving and recovery:
`currentConfig` as a JSON value (it is loaded from the store or adopted from
a backup as it comes), `configModified`, and the value the store holds under
`keyMapperConfig`, if any. -/
structure Session where
  currentConfig : JVal
  configModified : Bool
  stored : Option JVal

/-- The function `saveSettings` of options.js; `writeSucceeds` tells whether
`chrome.storage.sync.set` resolves.  The second component is the error handed
to `handleError`, if any. -/
def saveSettings (env : Builtins) (writeSucceeds : Bool) (s : Session) :
    Session × Option Thrown :=
  let configToSave := jsonCopy s.currentConfig
  match validateConfig env configToSave with
  | Except.error e => (s, some e)
  | Except.ok _ =>
    if writeSucceeds then
      ({ s with stored := some configToSave, configModified := false }, none)
    else (s, some Thrown.error)

/-- The function `autoSave` of options.js. -/
def autoSave (env : Builtins) (writeSucceeds : Bool) (s : Session) : Session × Option Thrown :=
  if !s.configModified then (s, none)
  else
    let configToSave := jsonCopy s.currentConfig
    match validateConfig env configToSave with
    | Except.error e => (s, some e)
    | Except.ok _ =>
      if writeSucceeds then
        ({ s with stored := some configToSave, configModified := false }, none)
      else (s, some Thrown.error)

/-- What `recoverFromError` finds in the backup store: nothing (`getItem`
gives `null` or the empty string), a text `JSON.parse` throws on, or a text
it parses to a value. -/
inductive Backup where
  | absent
  | notParseable
  | parsed (config : JVal)

/-- The empty default config `{ websites: [], mappings: {} }`. -/
def defaultConfigJson : JVal :=
  JVal.obj [("websites".toList, JVal.arr []), ("mappings".toList, JVal.obj [])]

/-- The function `recoverFromError` of options.js: the new state and the
boolean it returns. -/
def recoverFromError (env : Builtins) (writeSucceeds : Bool) (backup : Backup) (s : Session) :
    Session × Bool :=
  match backup with
  | Backup.parsed config =>
    match validateConfig env config with
    | Except.error _ => (s, false)
    | Except.ok _ => ((saveSettings env writeSucceeds { s with currentConfig := config }).1, true)
  | Backup.notParseable => (s, false)
  | Backup.absent =>
    ((saveSettings env writeSucceeds { s with currentConfig := defaultConfigJson }).1, true)

end Options

namespace Options

/-! ### The sequence under construction -/

/-- The value of a character as a digit of the given radix, if it is one. -/
def radixDigit (radix : Nat) (c : Char) : Option Nat :=
  let n := c.toNat
  let value :=
    if 48 ≤ n && n ≤ 57 then some (n - 48)
    else if 97 ≤ n && n ≤ 122 then some (n - 87)
    else if 65 ≤ n && n ≤ 90 then some (n - 55)
    else none
  match value with
  | some d => if d < radix then some d else none
  | none => none

/-- The call `parseInt(s)` with no radix: leading white space is skipped, a
sign is read, a leading `0x` or `0X` selects radix 16, and the longest run of
digits is read; `none` is NaN, the result when there is no digit.  The
result is the exact integer (the rounding of a value beyond 2^53 is not
modelled, and minus zero is zero). -/
def parseInt (s : Str) : Option Int :=
  let s1 := s.dropWhile isWhiteSpace
  let negative :=
    match s1 with
    | '-' :: _ => true
    | _ => false
  let s2 :=
    match s1 with
    | '-' :: rest => rest
    | '+' :: rest => rest
    | rest => rest
  let radix :=
    match s2 with
    | '0' :: 'x' :: _ => 16
    | '0' :: 'X' :: _ => 16
    | _ => 10
  let s3 :=
    match s2 with
    | '0' :: 'x' :: rest => rest
    | '0' :: 'X' :: rest => rest
    | rest => rest
  let digits := (s3.takeWhile fun c => (radixDigit radix c).isSome).filterMap (radixDigit radix)
  if digits.isEmpty then none
  else
    let value : Nat := digits.foldl (fun acc d => acc * radix + d) 0
    some (if negative then -(value : Int) else (value : Int))

/-- The variables of the sequence mode of the editor: `currentSequence`, and
the key records held in `dataset.keyInfo` of the elements
`sequence-source-key` and `sequence-target-key`. -/
structure SequenceEditor where
  currentSequence : List KeyInfo
  sequenceSourceKeyInfo : Option KeyInfo
  sequenceTargetKeyInfo : Option KeyInfo
deriving DecidableEq, Repr

/-- The delay `addSequenceStep` computes from the text of the delay input,
`parseInt(delayInput.value) || 50`. -/
def stepDelayOfInput (delayText : Str) : Int :=
  match parseInt delayText with
  | some n => if n = 0 then 50 else n
  | none => 50

/-- The function `addSequenceStep` of options.js; `delayText` is the text of
the delay input. -/
def addSequenceStep (delayText : Str) (ed : SequenceEditor) : SequenceEditor :=
  match ed.sequenceTargetKeyInfo with
  | none => ed
  | some keyInfo =>
    { ed with
      currentSequence :=
        ed.currentSequence ++ [{ keyInfo with delay := some (stepDelayOfInput delayText) }],
      sequenceTargetKeyInfo := none }

/-- The function `addSequenceMapping` of options.js. -/
def addSequenceMapping (env : Builtins) (platform : Str) (st : State) (ed : SequenceEditor) :
    State × SequenceEditor :=
  match ed.sequenceSourceKeyInfo with
  | none => (st, ed)
  | some sourceKeyInfo =>
    if ed.currentSequence.isEmpty then (st, ed)
    else
      let sourceKeyText :=
        getKeyIdentifier env platform sourceKeyInfo.toModifiers sourceKeyInfo.key
      ({ st with
          currentConfig :=
            { st.currentConfig with
              mappings :=
                setProperty st.currentConfig.mappings sourceKeyText
                  (Target.sequence ed.currentSequence) },
          configModified := true },
       { ed with currentSequence := [], sequenceSourceKeyInfo := none })

/-! ### The consistency check -/

/-- The elements of `new Set(websites)` in iteration order: each website is
added in turn, and one that is already in the set changes nothing. -/
def uniqueWebsites (websites : List Str) : List Str :=
  websites.foldl (fun set website => if set.contains website then set else set ++ [website]) []

/-- The first block of `checkConfigConsistency`: when the set of the
websites is smaller than the list, the list is replaced by the elements of
the set and the config is marked modified. -/
def dedupeWebsites (st : State) : State :=
  if (uniqueWebsites st.currentConfig.websites).length != st.currentConfig.websites.length then
    { st with
      currentConfig :=
        { st.currentConfig with websites := uniqueWebsites st.currentConfig.websites },
      configModified := true }
  else st

/-- The second block of `checkConfigConsistency`: for each entry of the
mapping table as it stood when the block started, an entry whose source is
empty is deleted and the config is marked modified.  (A target of the table
is an object or an array, so the two tests on the target never fire.) -/
def dropInvalidMappings (st : State) : State :=
  st.currentConfig.mappings.foldl
    (fun s entry =>
      if entry.1.isEmpty then
        { s with
          currentConfig :=
            { s.currentConfig with mappings := deleteProperty s.currentConfig.mappings entry.1 },
          configModified := true }
      else s)
    st

/-- The function `checkConfigConsistency` of options.js: the new state and
the boolean it returns. -/
def checkConfigConsistency (st : State) : State × Bool :=
  (dropInvalidMappings (dedupeWebsites st), true)

end Options

/-! ### The statements of the specification, as definitions -/

/-- A site entry that is a bare lower-case hostname: lower-casing leaves it
unchanged, and it has no `/` and no white space. -/
def isNormalizedSite (env : Builtins) (s : Str) : Bool :=
  env.toLowerCase s == s && s.all fun c => c != '/' && !(isWhiteSpace c)

/-- The names of the held modifiers in the order control, shift, alt, meta:
Control, Shift, Option, Command on an Apple platform and Ctrl, Shift, Alt,
Win elsewhere. -/
def heldModifierNames (apple : Bool) (m : Modifiers) : List Str :=
  (if m.ctrlKey then [if apple then "Control".toList else "Ctrl".toList] else []) ++
  (if m.shiftKey then ["Shift".toList] else []) ++
  (if m.altKey then [if apple then "Option".toList else "Alt".toList] else []) ++
  (if m.metaKey then [if apple then "Command".toList else "Win".toList] else [])

/-- A function key name: `F` followed by a number, one or more decimal
digits. -/
def isFunctionKeyName : Str → Bool
  | 'F' :: ds => isDecimalDigits ds
  | _ => false

/-- The key name of the canonical identity as the specification words it: a
function key passes unchanged, a single character (a string of length one)
is upper-cased, anything else passes unchanged. -/
def specKeyName (env : Builtins) (k : Str) : Str :=
  if isFunctionKeyName k then k
  else if jsLength k = 1 then env.toUpperCase k
  else k

/-- The canonical identity as the specification words it: the names of the
held modifiers and the key name, joined by `+`. -/
def specIdentifier (env : Builtins) (platform : Str) (r : KeyEvent) : Str :=
  join "+".toList (heldModifierNames (isMac platform) r.toModifiers ++ [specKeyName env r.key])

/-- The distinct entries of a list in the order of their first occurrence:
the head, then the distinct entries of the tail other than the head. -/
def firstOccurrences : List Str → List Str
  | [] => []
  | x :: rest => x :: (firstOccurrences rest).filter fun y => !(y == x)

/-- A key record that is the JSON of a valid step but for its `metaKey`,
which is a string. -/
def metaKeyStringRecord : Options.JVal :=
  Options.JVal.obj
    [("key".toList, Options.JVal.str "a".toList), ("code".toList, Options.JVal.str "KeyA".toList),
     ("keyCode".toList, Options.JVal.num 65), ("which".toList, Options.JVal.num 65),
     ("metaKey".toList, Options.JVal.str "yes".toList)]

/-- A config whose mapping table maps `A` to `metaKeyStringRecord` and `B` to
a sequence of that one step. -/
def metaKeyStringConfig : Options.JVal :=
  Options.JVal.obj
    [("websites".toList, Options.JVal.arr []),
     ("mappings".toList,
      Options.JVal.obj [("A".toList, metaKeyStringRecord),
                ("B".toList, Options.JVal.arr [metaKeyStringRecord])])]

/-- A value of the four fields and the flags `validateConfig` checks: the
four required fields are present, and each of `ctrlKey`, `shiftKey`,
`altKey` that is present is a boolean. -/
def CheckedRecord (v : Options.JVal) : Prop :=
  (∀ name ∈ ["key".toList, "code".toList, "keyCode".toList, "which".toList],
    v.hasProp name = true) ∧
  (∀ name ∈ ["ctrlKey".toList, "shiftKey".toList, "altKey".toList],
    ∀ x, v.prop name = some x → ∃ b, x = Options.JVal.bool b)

/-- A sample host for evaluating the definitions on plain ASCII inputs: ASCII
case mapping, and a URL parser for the form `scheme://host` followed by
nothing or by `/`, `?` or `#` and anything. -/
def sampleBuiltins : Builtins where
  toLowerCase := fun s => s.map Char.toLower
  toUpperCase := fun s => s.map Char.toUpper
  urlHostname := fun s =>
    let rest := if startsWith (s.map Char.toLower) "https://".toList then s.drop 8
      else if startsWith (s.map Char.toLower) "http://".toList then s.drop 7 else []
    let host := rest.takeWhile fun c => !(c == '/' || c == '?' || c == '#')
    if host.isEmpty || host.any isWhiteSpace then none else some (host.map Char.toLower)

/-- A sample state of the runtime: ready, with the one site `site.com` and
no mapping. -/
def Content.sampleState : Content.State :=
  { configLoaded := true,
    config := { websites := ["site.com".toList], mappings := [] },
    keydownListener := true,
    retryInterval := none }

/-- A sample key event: `k` with control and shift held. -/
def sampleEvent : KeyEvent :=
  { ctrlKey := true, shiftKey := true, altKey := false, metaKey := false,
    key := "k".toList, code := "KeyK".toList, keyCode := 75, which := 75 }

/-- A key event with the key name `constructor` and no modifier held, as a
script of the page can dispatch it. -/
def constructorEvent : KeyEvent :=
  { ctrlKey := false, shiftKey := false, altKey := false, metaKey := false,
    key := "constructor".toList, code := [], keyCode := 0, which := 0 }

/-- A sample key record for the key `a`, with the given delay. -/
def sampleStep (delay : Option Int) : KeyInfo :=
  { ctrlKey := false, shiftKey := false, altKey := false, metaKey := false,
    key := "a".toList, code := "KeyA".toList, keyCode := 65, which := 65, delay := delay }

/-- The sum of the waits of a trace, in milliseconds. -/
def totalWait : List Content.Effect → Int
  | [] => 0
  | Content.Effect.wait ms :: rest => ms + totalWait rest
  | _ :: rest => totalWait rest

/-- A finite sequence of `addWebsite` calls, one for each input in turn. -/
def Options.addWebsites (env : Builtins) (inputs : List Str) (st : Options.State) :
    Options.State :=
  inputs.foldl (fun s input => (Options.addWebsite env input s).1) st

/-- The editor as the script creates it: the empty config, nothing modified,
no key captured. -/
def Options.State.initial : Options.State :=
  { currentConfig := Config.default, configModified := false, sourceKeyInfo := none,
    targetKeyInfo := none }

/-- A sample state of the editor: the table maps `A` to a sequence of one
step, and the key `a` is captured both as source and as target. -/
def Options.sampleState : Options.State :=
  { currentConfig :=
      { websites := [],
        mappings := [("A".toList, Target.sequence [sampleStep (some 50)])] },
    configModified := false,
    sourceKeyInfo := some (sampleStep none),
    targetKeyInfo := some (sampleStep none) }

/-- A run of steps in which no caller invokes `acquire` while a woken
waiter has yet to resume: such an `acquire` step is refused. -/
def Options.lockRunHandoff (s : Options.LockState) :
    List Options.LockStep → Option Options.LockState
  | [] => some s
  | Options.LockStep.acquire c :: rest =>
    if s.woken.isEmpty then
      match Options.lockStep s (Options.LockStep.acquire c) with
      | some s1 => Options.lockRunHandoff s1 rest
      | none => none
    else none
  | a :: rest =>
    match Options.lockStep s a with
    | some s1 => Options.lockRunHandoff s1 rest
    | none => none

/-- The invariant of the lock on runs without an `acquire` during a
hand-off: at most one caller is inside or woken, nobody is inside a free
lock, a free lock with nobody woken has an empty queue, and the callers that
entered, then the woken one, then the queued ones, are the callers in the
order of their `acquire` calls. -/
def Options.LockInv (s : Options.LockState) : Prop :=
  s.inside.length + s.woken.length ≤ 1 ∧
  (s.locked = false → s.inside = []) ∧
  (s.locked = false → s.woken = [] → s.queue = []) ∧
  s.entered ++ s.woken ++ s.queue = s.arrivals

/-- A sample session: a valid config of one site and one mapping is in
memory and modified, and the store is empty. -/
def Options.sampleSession : Options.Session :=
  { currentConfig :=
      Options.configJson
        { websites := ["example.com".toList],
          mappings := [("A".toList, Target.single (sampleStep none))] },
    configModified := true,
    stored := none }

/-- A session after a load that left an invalid config in memory (its
`websites` is a string) and nothing in the store. -/
def Options.staleSession : Options.Session :=
  { currentConfig :=
      Options.JVal.obj
        [("websites".toList, Options.JVal.str "x".toList),
         ("mappings".toList, Options.JVal.obj [])],
    configModified := false,
    stored := none }

/-- A sample state of the sequence mode: no step yet, and the key `a`
captured both as source and as target. -/
def Options.sampleSequenceEditor : Options.SequenceEditor :=
  { currentSequence := [],
    sequenceSourceKeyInfo := some (sampleStep none),
    sequenceTargetKeyInfo := some (sampleStep none) }

/-- A sample state of the editor whose site list has duplicates. -/
def Options.duplicateSitesState : Options.State :=
  { currentConfig :=
      { websites := ["a.com".toList, "b.com".toList, "a.com".toList, "c.com".toList,
                     "b.com".toList],
        mappings := [] },
    configModified := false,
    sourceKeyInfo := none,
    targetKeyInfo := none }

/-- A sample state of the editor whose site list has no duplicate and whose
mapping table has an entry with an empty source. -/
def Options.emptySourceState : Options.State :=
  { currentConfig :=
      { websites := ["a.com".toList],
        mappings := [([], Target.single (sampleStep none))] },
    configModified := false,
    sourceKeyInfo := none,
    targetKeyInfo := none }

/-- The state after the deletion of the entries of the mapping table whose
source is empty, marked modified. -/
def Options.withoutEmptySource (st : Options.State) : Options.State :=
  { st with
    currentConfig :=
      { st.currentConfig with mappings := Options.deleteProperty st.currentConfig.mappings [] },
    configModified := true }

/-- A config whose one mapping is a sequence of one step with a delay too
large for a double, as `JSON.parse` gives it for a backup that writes the
delay as `1e999`: the delay is `Infinity`. -/
def Options.overflowDelayConfig : Options.JVal :=
  Options.JVal.obj
    [("websites".toList, Options.JVal.arr []),
     ("mappings".toList,
      Options.JVal.obj
        [("A".toList,
          Options.JVal.arr
            [Options.JVal.obj
              [("key".toList, Options.JVal.str "a".toList),
               ("code".toList, Options.JVal.str "KeyA".toList),
               ("keyCode".toList, Options.JVal.num 65), ("which".toList, Options.JVal.num 65),
               ("delay".toList, Options.JVal.num (Int.ofNat (2 ^ 1024)))]])])]

/-! ## Theorems -/

/-! ### Strings -/

theorem endsWith_iff (s p : Str) : endsWith s p = true ↔ ∃ pre, s = pre ++ p := by
  unfold endsWith
  rw [List.isPrefixOf_iff_prefix, List.reverse_prefix]
  constructor
  · rintro ⟨t, ht⟩
    exact ⟨t, ht.symm⟩
  · rintro ⟨t, ht⟩
    exact ⟨t, ht.symm⟩

theorem dropWhile_of_all_false {p : Char → Bool} :
    ∀ s : Str, (∀ c ∈ s, p c = false) → s.dropWhile p = s
  | [], _ => rfl
  | c :: rest, h => by
    have hc : p c = false := h c (List.mem_cons_self c rest)
    simp [List.dropWhile, hc]

theorem trim_of_no_whiteSpace (s : Str) (h : ∀ c ∈ s, isWhiteSpace c = false) : trim s = s := by
  unfold trim
  rw [dropWhile_of_all_false s h, dropWhile_of_all_false s.reverse, List.reverse_reverse]
  intro c hc
  exact h c (List.mem_reverse.mp hc)

theorem startsWith_false_of_not_mem (s p : Str) (c : Char) (hp : c ∈ p) (hs : c ∉ s) :
    startsWith s p = false := by
  unfold startsWith
  cases hpre : p.isPrefixOf s with
  | false => rfl
  | true =>
    rw [List.isPrefixOf_iff_prefix] at hpre
    exact absurd (hpre.subset hp) hs

theorem contains_iff_mem {l : List Str} {a : Str} : l.contains a = true ↔ a ∈ l :=
  List.elem_iff

namespace Content

theorem stripScheme_of_no_slash (s : Str) (h : '/' ∉ s) : stripScheme s = s := by
  unfold stripScheme
  rw [startsWith_false_of_not_mem s "https://".toList '/' (by decide) h,
    startsWith_false_of_not_mem s "http://".toList '/' (by decide) h]
  rfl

theorem stripPath_of_no_slash : ∀ s : Str, '/' ∉ s → stripPath s = s
  | [], _ => rfl
  | c :: rest, h => by
    have hc : c ≠ '/' := fun e => h (e ▸ List.mem_cons_self c rest)
    have hrest : '/' ∉ rest := fun m => h (List.mem_cons_of_mem c m)
    simp [stripPath, hc, stripPath_of_no_slash rest hrest]

theorem normalizeDomain_of_normalized (env : Builtins) (s : Str)
    (h : isNormalizedSite env s = true) : normalizeDomain env s = s := by
  unfold isNormalizedSite at h
  simp only [Bool.and_eq_true, beq_iff_eq, List.all_eq_true, bne_iff_ne, ne_eq,
    Bool.not_eq_true'] at h
  obtain ⟨hlow, hall⟩ := h
  have hslash : '/' ∉ s := fun m => (hall '/' m).1 rfl
  unfold normalizeDomain
  rw [hlow, trim_of_no_whiteSpace s (fun c hc => (hall c hc).2), stripScheme_of_no_slash s hslash,
    stripPath_of_no_slash s hslash]

/-- C1. With the config ready, for a lower-case hostname `h` and a site list
of bare lower-case hostnames, `isWebsiteEnabled` is true exactly when some
entry `s` has `h = s` or `h` ends with a dot followed by `s`. -/
theorem isWebsiteEnabled_iff (env : Builtins) (st : State) (h : Str)
    (hready : st.configLoaded = true) (hlower : env.toLowerCase h = h)
    (hsites : ∀ s ∈ st.config.websites, isNormalizedSite env s = true) :
    isWebsiteEnabled env st h = true ↔
      ∃ s ∈ st.config.websites, h = s ∨ ∃ pre, h = pre ++ ".".toList ++ s := by
  unfold isWebsiteEnabled
  simp only [hready, Bool.not_true, Bool.false_eq_true, if_false, hlower, List.any_eq_true,
    Bool.or_eq_true, beq_iff_eq, endsWith_iff, List.append_assoc]
  constructor
  · rintro ⟨s, hs, hmatch⟩
    rw [normalizeDomain_of_normalized env s (hsites s hs)] at hmatch
    exact ⟨s, hs, hmatch⟩
  · rintro ⟨s, hs, hmatch⟩
    refine ⟨s, hs, ?_⟩
    rw [normalizeDomain_of_normalized env s (hsites s hs)]
    exact hmatch

/-- The witness of C1: a subdomain of the listed site is in scope; a host
that only has the site as a suffix without the dot, and an unrelated host,
are not. -/
theorem isWebsiteEnabled_iff_witness :
    isWebsiteEnabled sampleBuiltins sampleState "www.site.com".toList = true ∧
    isWebsiteEnabled sampleBuiltins sampleState "evilsite.com".toList = false ∧
    isWebsiteEnabled sampleBuiltins sampleState "example.org".toList = false := by
  refine ⟨?_, ?_, ?_⟩
  · exact (isWebsiteEnabled_iff sampleBuiltins sampleState "www.site.com".toList rfl
      (by decide) (by decide)).mpr ⟨"site.com".toList, by decide, Or.inr ⟨"www".toList, rfl⟩⟩
  · rw [Bool.eq_false_iff]
    intro h
    obtain ⟨s, hs, hmatch⟩ := (isWebsiteEnabled_iff sampleBuiltins sampleState
      "evilsite.com".toList rfl (by decide) (by decide)).mp h
    have hs1 : s = "site.com".toList := List.mem_singleton.mp hs
    subst hs1
    rcases hmatch with h1 | h2
    · exact absurd h1 (by decide)
    · obtain ⟨pre, hpre⟩ := h2
      exact absurd ((endsWith_iff "evilsite.com".toList (".".toList ++ "site.com".toList)).mpr
        ⟨pre, hpre.trans (List.append_assoc _ _ _)⟩) (by decide)
  · rw [Bool.eq_false_iff]
    intro h
    obtain ⟨s, hs, hmatch⟩ := (isWebsiteEnabled_iff sampleBuiltins sampleState
      "example.org".toList rfl (by decide) (by decide)).mp h
    have hs1 : s = "site.com".toList := List.mem_singleton.mp hs
    subst hs1
    rcases hmatch with h1 | h2
    · exact absurd h1 (by decide)
    · obtain ⟨pre, hpre⟩ := h2
      exact absurd ((endsWith_iff "example.org".toList (".".toList ++ "site.com".toList)).mpr
        ⟨pre, hpre.trans (List.append_assoc _ _ _)⟩) (by decide)

end Content

/-! ### The canonical key identity -/

/-- C2. On equal key records and equal platform strings the runtime's
`getKeyIdentifier(event)` and the editor's `getKeyIdentifier(event,
event.key)` return the same string, and each returns equal strings. -/
theorem getKeyIdentifier_runtime_eq_editor (env : Builtins) (p1 p2 : Str) (e1 e2 : KeyEvent)
    (hp : p1 = p2) (he : e1 = e2) :
    Content.getKeyIdentifier env p1 e1 = Options.getKeyIdentifier env p2 e2.toModifiers e2.key ∧
    Content.getKeyIdentifier env p1 e1 = Content.getKeyIdentifier env p2 e2 ∧
    Options.getKeyIdentifier env p1 e1.toModifiers e1.key =
      Options.getKeyIdentifier env p2 e2.toModifiers e2.key := by
  subst hp
  subst he
  exact ⟨rfl, rfl, rfl⟩

/-- The witness of C2: control, shift and `k` on a platform that is not an
Apple one. -/
theorem getKeyIdentifier_runtime_eq_editor_witness :
    Content.getKeyIdentifier sampleBuiltins "Win32".toList sampleEvent =
      Options.getKeyIdentifier sampleBuiltins "Win32".toList sampleEvent.toModifiers
        sampleEvent.key ∧
    Content.getKeyIdentifier sampleBuiltins "Win32".toList sampleEvent = "Ctrl+Shift+K".toList :=
  ⟨(getKeyIdentifier_runtime_eq_editor sampleBuiltins "Win32".toList "Win32".toList
      sampleEvent sampleEvent rfl rfl).1, by decide⟩

theorem jsLength_pos_of_cons (c : Char) (rest : Str) : 1 ≤ jsLength (c :: rest) := by
  unfold jsLength
  rw [List.map_cons, List.sum_cons]
  split <;> omega

theorem jsLength_eq_one (k : Str) (h : jsLength k = 1) : ∃ c, k = [c] := by
  match k, h with
  | [c], _ => exact ⟨c, rfl⟩
  | c :: d :: rest, h =>
    have h2 : 1 ≤ jsLength (d :: rest) := jsLength_pos_of_cons d rest
    have h3 : jsLength (c :: d :: rest) =
        (if c.toNat < 65536 then 1 else 2) + jsLength (d :: rest) := by
      simp [jsLength]
    rw [h3] at h
    split at h <;> omega

/-- The key name `getKeyIdentifier` computes is the one the specification
words, on a host whose upper-casing leaves `F` unchanged. -/
theorem keyName_eq_specKeyName (env : Builtins) (hF : env.toUpperCase "F".toList = "F".toList)
    (k : Str) :
    (if (match k with
        | 'F' :: rest => !(isNaN rest)
        | _ => false) then k
    else if jsLength k == 1 then env.toUpperCase k
    else k) = specKeyName env k := by
  unfold specKeyName
  by_cases h1 : jsLength k = 1
  · obtain ⟨c, rfl⟩ := jsLength_eq_one k h1
    by_cases hc : c = 'F'
    · subst hc
      have e1 : isNaN [] = false := by decide
      have e2 : isFunctionKeyName ['F'] = false := by decide
      simp only [e1, e2, Bool.not_false, if_true, Bool.false_eq_true, if_false, h1]
      exact hF.symm
    · have e2 : isFunctionKeyName [c] = false := by
        unfold isFunctionKeyName
        split
        · rename_i heq
          simp only [List.cons.injEq] at heq
          exact absurd heq.1 hc
        · rfl
      rw [e2]
      simp only [h1, beq_self_eq_true, if_true, Bool.false_eq_true, if_false]
      split
      · rename_i h
        split at h
        · rename_i heq
          simp only [List.cons.injEq] at heq
          exact absurd heq.1 hc
        · exact absurd h (by decide)
      · rfl
  · have e3 : (jsLength k == 1) = false := by simpa using h1
    simp only [e3, h1, if_false, Bool.false_eq_true, ite_self]

/-- C3. `getKeyIdentifier`, in the runtime and in the editor, returns the
names of the held modifiers in the order control, shift, alt, meta (the
Apple names on an Apple platform), then the key name, joined by `+`: the key
name unchanged for a function key, upper-cased for a single character, and
unchanged otherwise; with no modifier held the result is the key name alone.
The host's upper-casing is assumed to leave the letter `F` unchanged. -/
theorem getKeyIdentifier_eq_specIdentifier (env : Builtins)
    (hF : env.toUpperCase "F".toList = "F".toList) (platform : Str) (r : KeyEvent) :
    Content.getKeyIdentifier env platform r = specIdentifier env platform r ∧
    Options.getKeyIdentifier env platform r.toModifiers r.key = specIdentifier env platform r ∧
    (r.ctrlKey = false → r.shiftKey = false → r.altKey = false → r.metaKey = false →
      Content.getKeyIdentifier env platform r = specKeyName env r.key) := by
  obtain ⟨⟨c, s, a, m⟩, key, code, keyCode, which⟩ := r
  simp only [Content.getKeyIdentifier, Options.getKeyIdentifier, keyName_eq_specKeyName env hF,
    specIdentifier, modifierNames, heldModifierNames]
  refine ⟨?_, ?_, ?_⟩
  · cases c <;> cases s <;> cases a <;> cases m <;> cases isMac platform <;> rfl
  · cases c <;> cases s <;> cases a <;> cases m <;> cases isMac platform <;> rfl
  · intro hc hs ha hm
    subst hc hs ha hm
    rfl

/-- The witness of C3: control, shift and `k` give `Ctrl+Shift+K` on a
platform that is not an Apple one and `Control+Shift+K` on an Apple one. -/
theorem getKeyIdentifier_eq_specIdentifier_witness :
    Content.getKeyIdentifier sampleBuiltins "Win32".toList sampleEvent = "Ctrl+Shift+K".toList ∧
    Options.getKeyIdentifier sampleBuiltins "MacIntel".toList sampleEvent.toModifiers
      sampleEvent.key = "Control+Shift+K".toList :=
  ⟨(getKeyIdentifier_eq_specIdentifier sampleBuiltins (by decide) "Win32".toList
      sampleEvent).1.trans (by decide),
   (getKeyIdentifier_eq_specIdentifier sampleBuiltins (by decide) "MacIntel".toList
      sampleEvent).2.1.trans (by decide)⟩

/-! ### The keydown handler -/

namespace Content

/-- While the config is not ready, `handleKeyDown` leaves every event
untouched and starts no replay. -/
theorem handleKeyDown_not_ready (env : Builtins) (platform : Str) (hasActiveElement : Bool)
    (st : State) (hostname : Str) (event : KeyEvent) (h : st.configLoaded = false) :
    handleKeyDown env platform hasActiveElement st hostname event = KeyDownResult.untouched := by
  simp [handleKeyDown, h]

/-- The events `handleKeyDown` suppresses: the config is ready, the host is
in scope, and the read of the mapping table at the identity of the event
finds an own property or a member of `Object.prototype`. -/
theorem handleKeyDown_defaultPrevented_iff (env : Builtins) (platform : Str)
    (hasActiveElement : Bool) (st : State) (hostname : Str) (event : KeyEvent) :
    (handleKeyDown env platform hasActiveElement st hostname event).defaultPrevented = true ↔
      st.configLoaded = true ∧ isWebsiteEnabled env st hostname = true ∧
      ((st.config.mappings.lookup (getKeyIdentifier env platform event)).isSome = true ∨
        getKeyIdentifier env platform event ∈ objectPrototypeNames) := by
  cases hl : st.configLoaded with
  | false => simp [handleKeyDown, hl, KeyDownResult.untouched]
  | true =>
    cases hw : isWebsiteEnabled env st hostname with
    | false => simp [handleKeyDown, hl, hw, KeyDownResult.untouched]
    | true =>
      cases hlook : st.config.mappings.lookup (getKeyIdentifier env platform event) with
      | some target =>
        cases target <;> simp [handleKeyDown, getProperty, hl, hw, hlook]
      | none =>
        by_cases hmem : getKeyIdentifier env platform event ∈ objectPrototypeNames <;>
          simp [handleKeyDown, getProperty, hl, hw, hlook, hmem, KeyDownResult.untouched]

/-- C4, at the input where the code departs from it: the config is ready,
the host `site.com` is in scope, the mapping table is empty, and the event
has the key name `constructor`.  The table has no entry for the identity of
the event, and `handleKeyDown` prevents the default action, stops the
propagation and starts a replay. -/
theorem handleKeyDown_inherited_member :
    sampleState.config.mappings.lookup
      (getKeyIdentifier sampleBuiltins "Win32".toList constructorEvent) = none ∧
    handleKeyDown sampleBuiltins "Win32".toList false sampleState "site.com".toList
      constructorEvent =
      { defaultPrevented := true, immediatePropagationStopped := true,
        replay := some (executeKeyMapping false none) } := by
  decide

/-! ### The replay of a sequence -/

/-- The steps of a sequence are replayed in list order, each followed by its
wait. -/
theorem executeKeySequence_cons (hasActiveElement : Bool) (step : KeyInfo)
    (rest : List KeyInfo) :
    executeKeySequence hasActiveElement (step :: rest) =
      executeKeyMapping hasActiveElement (some step) ++ [Effect.wait (stepDelay step)] ++
        executeKeySequence hasActiveElement rest := by
  simp [executeKeySequence, List.flatMap_cons]

/-- The wait after a step is its delay when that is present and not zero,
and 50 ms when it is absent or zero. -/
theorem stepDelay_eq (step : KeyInfo) :
    (step.delay = none → stepDelay step = 50) ∧
    (step.delay = some 0 → stepDelay step = 50) ∧
    (∀ d, step.delay = some d → d ≠ 0 → stepDelay step = d) := by
  refine ⟨?_, ?_, ?_⟩
  · intro h
    simp [stepDelay, h]
  · intro h
    simp [stepDelay, h]
  · intro d h hd
    simp [stepDelay, h, hd]

/-- C5, at the input where the code departs from it: a step that carries
the delay 0 is followed by a wait of 50 ms, the wait of a step without a
delay.  For the delays 50, 100 and 0 the waits after the steps are 50, 100
and 50, and all the waits of the replay total 290 ms. -/
theorem executeKeySequence_zero_delay :
    executeKeySequence false [sampleStep (some 0)] =
      executeKeyMapping false (some (sampleStep (some 0))) ++ [Effect.wait 50] ∧
    [sampleStep (some 50), sampleStep (some 100), sampleStep (some 0)].map stepDelay =
      [50, 100, 50] ∧
    totalWait (executeKeySequence false
      [sampleStep (some 50), sampleStep (some 100), sampleStep (some 0)]) = 290 := by
  decide

/-! ### The initial load -/

/-- C6, at the input where the code departs from it: when the read of the
store fails with an error object, `initializeConfig` handles the error
itself and its promise resolves, so the `catch` handler of the last
statement does not run: `startRetryMechanism` is not called and no interval
is armed.  The ready flag is false. -/
theorem startup_read_failure_arms_no_retry (st : State) :
    initializeConfig (StorageRead.failed Rejection.errorObject) st =
      ({ st with configLoaded := false }, Completion.resolved) ∧
    (startup (StorageRead.failed Rejection.errorObject) st).configLoaded = false ∧
    (startup (StorageRead.failed Rejection.errorObject) st).retryInterval = st.retryInterval ∧
    (startup (StorageRead.failed Rejection.errorObject) State.initial).retryInterval = none :=
  ⟨rfl, rfl, rfl, rfl⟩

/-- What `startRetryMechanism` arms, once it runs: a 5000 ms interval whose
tick attempts the load while the config is not ready and clears the interval
once it is. -/
theorem retryTick_spec (read : StorageRead) (st : State) :
    (startRetryMechanism st).retryInterval = some 5000 ∧
    (st.configLoaded = false → retryTick read st = (initializeConfig read st).1) ∧
    (st.configLoaded = true → retryTick read st = { st with retryInterval := none }) := by
  refine ⟨rfl, ?_, ?_⟩ <;> intro h <;> simp [retryTick, h]

end Content

/-! ### The mapping table of the editor -/

namespace Options

theorem lookup_eq_none_forall {m : List (Str × Target)} {k : Str} (h : m.lookup k = none) :
    ∀ p ∈ m, (p.1 == k) = false := by
  induction m with
  | nil => intro p hp; cases hp
  | cons q rest ih =>
    obtain ⟨a, b⟩ := q
    rw [List.lookup_cons] at h
    cases hka : k == a with
    | true => rw [hka] at h; cases h
    | false =>
      rw [hka] at h
      intro p hp
      rcases List.mem_cons.mp hp with rfl | hp
      · cases hak : (a == k) with
        | false => rfl
        | true =>
          have e : a = k := by simpa using hak
          subst e
          simp at hka
      · exact ih h p hp

theorem deleteProperty_of_lookup_none {m : List (Str × Target)} {k : Str}
    (h : m.lookup k = none) : deleteProperty m k = m := by
  unfold deleteProperty
  rw [List.filter_eq_self]
  intro p hp
  simp [lookup_eq_none_forall h p hp]

theorem filter_map_overwrite (k : Str) (v : Target) (m : List (Str × Target)) :
    (m.map fun p => if p.1 == k then (p.1, v) else p).filter (fun p => !(p.1 == k)) =
      m.filter fun p => !(p.1 == k) := by
  induction m with
  | nil => rfl
  | cons q rest ih =>
    rw [List.map_cons, List.filter_cons, List.filter_cons, ih]
    by_cases hq : (q.1 == k) = true
    · simp [hq]
    · simp [hq]

/-- Deleting a key after assigning to it leaves the table without the key. -/
theorem deleteProperty_setProperty (m : List (Str × Target)) (k : Str) (v : Target) :
    deleteProperty (setProperty m k v) k = deleteProperty m k := by
  unfold setProperty
  cases hl : m.lookup k with
  | some t =>
    simp only [Option.isSome_some, if_true, deleteProperty]
    exact filter_map_overwrite k v m
  | none =>
    simp only [Option.isSome_none, Bool.false_eq_true, if_false]
    split
    · rfl
    · simp [deleteProperty, List.filter_append]

/-- C7, as stated, fails: the table maps `A` to a key, `a` is captured as
source; `addMapping` overwrites the entry of `A` and `removeMapping` deletes
it, so the table ends empty and not as it was. -/
theorem addMapping_removeMapping_overwrites :
    (removeMapping
        (getKeyIdentifier sampleBuiltins "Win32".toList (sampleStep none).toModifiers
          (sampleStep none).key)
        (addMapping sampleBuiltins "Win32".toList sampleState)).currentConfig.mappings = [] ∧
    (removeMapping
        (getKeyIdentifier sampleBuiltins "Win32".toList (sampleStep none).toModifiers
          (sampleStep none).key)
        (addMapping sampleBuiltins "Win32".toList sampleState)).currentConfig.mappings ≠
      sampleState.currentConfig.mappings := by
  decide

/-- C7, amended: with source and target captured, when the table has no
entry for the identity of the source, `addMapping` followed by
`removeMapping` of that identity leaves the config, and so the table, as it
was; in every case the table ends as the old one without that identity. -/
theorem addMapping_removeMapping_roundtrip (env : Builtins) (platform : Str) (st : State)
    (source target : KeyInfo) (hs : st.sourceKeyInfo = some source)
    (ht : st.targetKeyInfo = some target) :
    (st.currentConfig.mappings.lookup
        (getKeyIdentifier env platform source.toModifiers source.key) = none →
      (removeMapping (getKeyIdentifier env platform source.toModifiers source.key)
        (addMapping env platform st)).currentConfig = st.currentConfig) ∧
    (removeMapping (getKeyIdentifier env platform source.toModifiers source.key)
        (addMapping env platform st)).currentConfig.mappings =
      deleteProperty st.currentConfig.mappings
        (getKeyIdentifier env platform source.toModifiers source.key) := by
  have key : (removeMapping (getKeyIdentifier env platform source.toModifiers source.key)
        (addMapping env platform st)).currentConfig =
      { st.currentConfig with
        mappings := deleteProperty st.currentConfig.mappings
          (getKeyIdentifier env platform source.toModifiers source.key) } := by
    simp only [removeMapping, addMapping, hs, ht, deleteProperty_setProperty]
  refine ⟨?_, ?_⟩
  · intro hfresh
    rw [key, deleteProperty_of_lookup_none hfresh]
  · rw [key]

/-- The witness of C7: from the empty table, with `a` captured as source. -/
theorem addMapping_removeMapping_roundtrip_witness :
    (removeMapping
        (getKeyIdentifier sampleBuiltins "Win32".toList (sampleStep none).toModifiers
          (sampleStep none).key)
        (addMapping sampleBuiltins "Win32".toList
          { sampleState with currentConfig := Config.default })).currentConfig =
      Config.default :=
  (addMapping_removeMapping_roundtrip sampleBuiltins "Win32".toList
    { sampleState with currentConfig := Config.default } (sampleStep none)
    (sampleStep none) rfl rfl).1 rfl

end Options

/-! ### The site list of the editor -/

namespace Options

theorem addWebsite_of_empty (env : Builtins) (input : Str) (st : State)
    (he : (trim input).isEmpty = true) :
    addWebsite env input st = (st, some (Thrown.appError ErrorTypes.INVALID_WEBSITE)) := by
  simp only [addWebsite, he, if_true]

theorem addWebsite_of_error (env : Builtins) (input : Str) (st : State) (e : Thrown)
    (he : (trim input).isEmpty = false) (hn : normalizeWebsite env (trim input) = Except.error e) :
    addWebsite env input st = (st, some e) := by
  simp only [addWebsite, he, hn, Bool.false_eq_true, if_false]

theorem addWebsite_of_present (env : Builtins) (input : Str) (st : State) (n : Str)
    (he : (trim input).isEmpty = false) (hn : normalizeWebsite env (trim input) = Except.ok n)
    (hc : st.currentConfig.websites.contains n = true) :
    addWebsite env input st = (st, some (Thrown.appError ErrorTypes.DUPLICATE_WEBSITE)) := by
  simp only [addWebsite, he, hn, hc, Bool.false_eq_true, if_false, if_true]

theorem addWebsite_of_absent (env : Builtins) (input : Str) (st : State) (n : Str)
    (he : (trim input).isEmpty = false) (hn : normalizeWebsite env (trim input) = Except.ok n)
    (hc : st.currentConfig.websites.contains n = false) :
    addWebsite env input st =
      ({ st with
          currentConfig :=
            { st.currentConfig with websites := st.currentConfig.websites ++ [n] },
          configModified := true }, none) := by
  simp only [addWebsite, he, hn, hc, Bool.false_eq_true, if_false]

/-- What one `addWebsite` call does to the state, case by case. -/
theorem addWebsite_cases (env : Builtins) (input : Str) (st : State) :
    ((addWebsite env input st).1 = st) ∨
    (∃ n, (trim input).isEmpty = false ∧ normalizeWebsite env (trim input) = Except.ok n ∧
      n ∉ st.currentConfig.websites ∧
      (addWebsite env input st).1 =
        { st with
          currentConfig :=
            { st.currentConfig with websites := st.currentConfig.websites ++ [n] },
          configModified := true }) := by
  cases he : (trim input).isEmpty with
  | true => left; rw [addWebsite_of_empty env input st he]
  | false =>
    cases hn : normalizeWebsite env (trim input) with
    | error e => left; rw [addWebsite_of_error env input st e he hn]
    | ok n =>
      cases hc : st.currentConfig.websites.contains n with
      | true => left; rw [addWebsite_of_present env input st n he hn hc]
      | false =>
        right
        refine ⟨n, rfl, rfl, ?_, ?_⟩
        · intro hmem
          rw [contains_iff_mem.mpr hmem] at hc
          cases hc
        · rw [addWebsite_of_absent env input st n he hn hc]

theorem addWebsite_nodup (env : Builtins) (input : Str) (st : State)
    (h : st.currentConfig.websites.Nodup) :
    (addWebsite env input st).1.currentConfig.websites.Nodup := by
  rcases addWebsite_cases env input st with e | ⟨n, _, _, hn, e⟩
  · rw [e]; exact h
  · rw [e]
    exact List.Nodup.append h (List.nodup_singleton n)
      (by
        intro a ha hb
        rw [List.mem_singleton] at hb
        subst hb
        exact hn ha)

theorem addWebsites_nodup (env : Builtins) (inputs : List Str) :
    ∀ st : State, st.currentConfig.websites.Nodup →
      (addWebsites env inputs st).currentConfig.websites.Nodup := by
  induction inputs with
  | nil => intro st h; exact h
  | cons input rest ih =>
    intro st h
    exact ih _ (addWebsite_nodup env input st h)

/-- C8. From a site list without duplicates, any finite sequence of
`addWebsite` calls leaves a site list without duplicates.  A call with an
empty input, or with an input whose normalized hostname is in the list,
leaves the state unchanged; a call with any other input that normalizes
appends the normalized hostname once.  On a host that parses
`https://Example.COM/path` to a hostname that lower-cases to `example.com`,
adding `Example.COM/path` twice to the empty list leaves the one entry
`example.com`. -/
theorem addWebsite_keeps_sites_distinct (env : Builtins) (inputs : List Str) (st : State)
    (hnodup : st.currentConfig.websites.Nodup) :
    (addWebsites env inputs st).currentConfig.websites.Nodup ∧
    (∀ input, (trim input).isEmpty = true → (addWebsite env input st).1 = st) ∧
    (∀ input n, normalizeWebsite env (trim input) = Except.ok n →
      n ∈ st.currentConfig.websites → (addWebsite env input st).1 = st) ∧
    (∀ input n, (trim input).isEmpty = false →
      normalizeWebsite env (trim input) = Except.ok n → n ∉ st.currentConfig.websites →
      (addWebsite env input st).1.currentConfig.websites = st.currentConfig.websites ++ [n]) ∧
    (∀ host, st.currentConfig.websites = [] →
      env.urlHostname "https://Example.COM/path".toList = some host →
      env.toLowerCase host = "example.com".toList →
      (addWebsite env "Example.COM/path".toList st).1.currentConfig.websites =
        ["example.com".toList] ∧
      (addWebsites env ["Example.COM/path".toList, "Example.COM/path".toList]
        st).currentConfig.websites = ["example.com".toList]) := by
  have hempty : ∀ input, (trim input).isEmpty = true → (addWebsite env input st).1 = st := by
    intro input h
    rw [addWebsite_of_empty env input st h]
  have hdup : ∀ (s : State) input n, normalizeWebsite env (trim input) = Except.ok n →
      n ∈ s.currentConfig.websites → (addWebsite env input s).1 = s := by
    intro s input n hn hmem
    cases he : (trim input).isEmpty with
    | true => rw [addWebsite_of_empty env input s he]
    | false => rw [addWebsite_of_present env input s n he hn (contains_iff_mem.mpr hmem)]
  have hnew : ∀ input n, (trim input).isEmpty = false →
      normalizeWebsite env (trim input) = Except.ok n → n ∉ st.currentConfig.websites →
      (addWebsite env input st).1.currentConfig.websites =
        st.currentConfig.websites ++ [n] := by
    intro input n he hn hmem
    have hc : st.currentConfig.websites.contains n = false := by
      cases hc : st.currentConfig.websites.contains n with
      | false => rfl
      | true => exact absurd (contains_iff_mem.mp hc) hmem
    rw [addWebsite_of_absent env input st n he hn hc]
  refine ⟨addWebsites_nodup env inputs st hnodup, hempty, hdup st, hnew, ?_⟩
  intro host hnil hurl hlow
  have htrim : trim "Example.COM/path".toList = "Example.COM/path".toList := by decide
  have hnorm : normalizeWebsite env (trim "Example.COM/path".toList) =
      Except.ok "example.com".toList := by
    rw [htrim]
    unfold normalizeWebsite
    have hs : hasScheme "Example.COM/path".toList = false := by decide
    rw [hs]
    simp only [Bool.false_eq_true, if_false]
    have happ : "https://".toList ++ "Example.COM/path".toList =
        "https://Example.COM/path".toList := by decide
    rw [happ, hurl]
    show Except.ok (env.toLowerCase host) = _
    rw [hlow]
  have hfirst : (addWebsite env "Example.COM/path".toList st).1.currentConfig.websites =
      ["example.com".toList] := by
    rw [hnew _ _ (by rw [htrim]; decide) hnorm (by rw [hnil]; simp), hnil]
    rfl
  refine ⟨hfirst, ?_⟩
  show (addWebsite env "Example.COM/path".toList
    (addWebsite env "Example.COM/path".toList st).1).1.currentConfig.websites = _
  rw [hdup _ _ _ hnorm (by rw [hfirst]; simp), hfirst]

/-- The witness of C8: on the sample host, adding `Example.COM/path` twice
to the empty site list leaves the one entry `example.com`. -/
theorem addWebsite_keeps_sites_distinct_witness :
    (addWebsites sampleBuiltins ["Example.COM/path".toList, "Example.COM/path".toList]
      State.initial).currentConfig.websites = ["example.com".toList] :=
  ((addWebsite_keeps_sites_distinct sampleBuiltins [] State.initial
    List.nodup_nil).2.2.2.2 "example.com".toList rfl (by decide) (by decide)).2

end Options

/-! ### The lock of the editor -/

namespace Options

/-- C9, at the run where the code departs from it.  Caller 1 acquires,
caller 2 calls `acquire` and is queued, caller 1 releases (which clears
`locked` and wakes caller 2), caller 3 calls `acquire` before caller 2 has
resumed and enters at once, then caller 2 resumes and enters as well.  The
state reached has the callers 3 and 2 inside together, and caller 3 entered
before caller 2, which had called `acquire` first. -/
theorem configLock_handoff_two_inside :
    ∃ s, LockReachable s ∧ s.inside = [3, 2] ∧ s.arrivals = [1, 2, 3] ∧
      s.entered = [1, 3, 2] :=
  ⟨{ locked := true, queue := [], woken := [], inside := [3, 2], arrivals := [1, 2, 3],
      entered := [1, 3, 2] },
    ⟨[LockStep.acquire 1, LockStep.acquire 2, LockStep.release 1, LockStep.acquire 3,
      LockStep.resume], by decide⟩, rfl, rfl, rfl⟩

theorem lockInv_initial : LockInv LockState.initial :=
  ⟨by decide, fun _ => rfl, fun _ _ => rfl, rfl⟩

theorem eq_singleton_of_contains {l : List Nat} {c : Nat} (hlen : l.length ≤ 1)
    (hc : l.contains c = true) : l = [c] := by
  match l, hlen, hc with
  | [a], _, hc =>
    have : c = a := by simpa using hc
    rw [this]
  | _ :: _ :: _, hlen, _ => simp at hlen

theorem lockInv_acquire (s s1 : LockState) (c : Nat) (hinv : LockInv s)
    (hw : s.woken = []) (h : lockStep s (LockStep.acquire c) = some s1) : LockInv s1 := by
  obtain ⟨locked, queue, woken, inside, arrivals, entered⟩ := s
  obtain ⟨h1, h2, h3, h4⟩ := hinv
  simp only at hw h1 h2 h3 h4
  subst hw
  cases locked with
  | true =>
    simp only [lockStep, if_true, Option.some.injEq] at h
    subst h
    refine ⟨h1, fun hf => Bool.noConfusion hf, fun hf => Bool.noConfusion hf, ?_⟩
    show entered ++ [] ++ (queue ++ [c]) = arrivals ++ [c]
    rw [← h4]
    simp
  | false =>
    simp only [lockStep, Bool.false_eq_true, if_false, Option.some.injEq] at h
    subst h
    have hin : inside = [] := h2 rfl
    have hq : queue = [] := h3 rfl rfl
    subst hin hq
    refine ⟨?_, fun hf => Bool.noConfusion hf, fun hf => Bool.noConfusion hf, ?_⟩
    · show ([] ++ [c]).length + ([] : List Nat).length ≤ 1
      simp
    · show entered ++ [c] ++ [] ++ [] = arrivals ++ [c]
      rw [← h4]
      simp

theorem lockInv_release (s s1 : LockState) (c : Nat) (hinv : LockInv s)
    (h : lockStep s (LockStep.release c) = some s1) : LockInv s1 := by
  obtain ⟨locked, queue, woken, inside, arrivals, entered⟩ := s
  obtain ⟨h1, h2, h3, h4⟩ := hinv
  simp only at h1 h2 h3 h4
  simp only [lockStep] at h
  cases hc : inside.contains c with
  | false =>
    rw [hc] at h
    simp only [Bool.false_eq_true, if_false] at h
    cases h
  | true =>
    rw [hc] at h
    simp only [if_true] at h
    have hin : inside = [c] := eq_singleton_of_contains (by omega) hc
    subst hin
    have hw : woken = [] := by
      cases woken with
      | nil => rfl
      | cons a t => simp at h1
    subst hw
    cases queue with
    | nil =>
      simp only [Option.some.injEq] at h
      subst h
      refine ⟨?_, fun _ => ?_, fun _ _ => rfl, h4⟩
      · show ([c].erase c).length + ([] : List Nat).length ≤ 1
        simp
      · show [c].erase c = []
        simp
    | cons next rest =>
      simp only [Option.some.injEq] at h
      subst h
      refine ⟨?_, fun _ => ?_, fun _ hnil => ?_, ?_⟩
      · show ([c].erase c).length + ([] ++ [next]).length ≤ 1
        simp
      · show [c].erase c = []
        simp
      · have hnil1 : ([] : List Nat) ++ [next] = [] := hnil
        simp at hnil1
      · show entered ++ ([] ++ [next]) ++ rest = arrivals
        rw [← h4]
        simp

theorem lockInv_resume (s s1 : LockState) (hinv : LockInv s)
    (h : lockStep s LockStep.resume = some s1) : LockInv s1 := by
  obtain ⟨locked, queue, woken, inside, arrivals, entered⟩ := s
  obtain ⟨h1, h2, h3, h4⟩ := hinv
  simp only at h1 h2 h3 h4
  simp only [lockStep] at h
  cases woken with
  | nil => cases h
  | cons c rest =>
    simp only [Option.some.injEq] at h
    subst h
    have hrest : rest = [] := by
      cases rest with
      | nil => rfl
      | cons a t => simp at h1; omega
    have hin : inside = [] := by
      cases inside with
      | nil => rfl
      | cons a t => simp at h1; omega
    subst hrest hin
    refine ⟨?_, fun hf => Bool.noConfusion hf, fun hf => Bool.noConfusion hf, ?_⟩
    · show ([] ++ [c]).length + ([] : List Nat).length ≤ 1
      simp
    · show entered ++ [c] ++ [] ++ queue = arrivals
      rw [← h4]
      simp

/-- On runs in which no caller invokes `acquire` between a release that
wakes a waiter and the resumption of that waiter, the lock excludes: at most
one caller is inside, and the callers that entered are the first of the
callers in the order of their `acquire` calls. -/
theorem lockRunHandoff_exclusive (steps : List LockStep) :
    ∀ s s1 : LockState, LockInv s → lockRunHandoff s steps = some s1 →
      s1.inside.length ≤ 1 ∧ s1.entered ++ s1.woken ++ s1.queue = s1.arrivals := by
  induction steps with
  | nil =>
    intro s s1 hinv h
    simp only [lockRunHandoff, Option.some.injEq] at h
    subst h
    exact ⟨by have := hinv.1; omega, hinv.2.2.2⟩
  | cons a rest ih =>
    intro s s1 hinv h
    cases a with
    | acquire c =>
      simp only [lockRunHandoff] at h
      cases hw : s.woken.isEmpty with
      | false => simp [hw] at h
      | true =>
        simp only [hw, if_true] at h
        cases hstep : lockStep s (LockStep.acquire c) with
        | none => simp [hstep] at h
        | some s2 =>
          simp only [hstep] at h
          exact ih s2 s1 (lockInv_acquire s s2 c hinv (List.isEmpty_iff.mp hw) hstep) h
    | release c =>
      simp only [lockRunHandoff] at h
      cases hstep : lockStep s (LockStep.release c) with
      | none => simp [hstep] at h
      | some s2 =>
        simp only [hstep] at h
        exact ih s2 s1 (lockInv_release s s2 c hinv hstep) h
    | resume =>
      simp only [lockRunHandoff] at h
      cases hstep : lockStep s LockStep.resume with
      | none => simp [hstep] at h
      | some s2 =>
        simp only [hstep] at h
        exact ih s2 s1 (lockInv_resume s s2 hinv hstep) h

/-! ### Validation -/

/-- C10, at the input where the code departs from it: on a config whose
`websites` is an empty array and whose `mappings` is `null`, the test
`typeof config.mappings !== 'object'` passes and `Object.entries` throws a
`TypeError`, which is not an `AppError`. -/
theorem validateConfig_null_mappings (env : Builtins) :
    validateConfig env
        (JVal.obj [("websites".toList, JVal.arr []), ("mappings".toList, JVal.null)]) =
      Except.error Thrown.typeError ∧
    ∀ type, validateConfig env
        (JVal.obj [("websites".toList, JVal.arr []), ("mappings".toList, JVal.null)]) ≠
      Except.error (Thrown.appError type) := by
  have h : validateConfig env
        (JVal.obj [("websites".toList, JVal.arr []), ("mappings".toList, JVal.null)]) =
      Except.error Thrown.typeError := by
    simp [validateConfig, JVal.truthy, JVal.typeofObject, JVal.prop, List.lookup, forEach,
      objectEntries]
  refine ⟨h, ?_⟩
  intro type
  rw [h]
  intro e
  cases e

/-- The inputs `validateConfig` rejects with the kind `INVALID_CONFIG`: a
value that is falsy or not of type `object`, a value whose `websites` is not
an array, and a value whose `mappings` is missing or not of type `object`. -/
theorem validateConfig_invalid_config (env : Builtins) (config : JVal) :
    ((config.truthy = false ∨ config.typeofObject = false) →
      validateConfig env config = Except.error (Thrown.appError ErrorTypes.INVALID_CONFIG)) ∧
    ((∀ items, config.prop "websites".toList ≠ some (JVal.arr items)) →
      validateConfig env config = Except.error (Thrown.appError ErrorTypes.INVALID_CONFIG)) ∧
    (config.prop "mappings".toList = none →
      validateConfig env config = Except.error (Thrown.appError ErrorTypes.INVALID_CONFIG)) ∧
    (∀ m, config.prop "mappings".toList = some m → m.typeofObject = false →
      validateConfig env config = Except.error (Thrown.appError ErrorTypes.INVALID_CONFIG)) := by
  refine ⟨?_, ?_, ?_, ?_⟩
  · rintro (h | h) <;> simp [validateConfig, h]
  · intro h
    unfold validateConfig
    split
    · rfl
    · split
      · rename_i items heq
        exact absurd heq (h items)
      · rfl
  · intro h
    unfold validateConfig
    split
    · rfl
    · split
      · rw [h]
      · rfl
  · intro m hm hty
    unfold validateConfig
    split
    · rfl
    · split
      · rw [hm]
        simp only [hty, Bool.not_false, if_true]
      · rfl

end Options

namespace Options

/-- A `forEach` whose callback throws only `AppError`s throws only
`AppError`s. -/
theorem forEach_classified {α : Type} (f : α → Except Thrown Unit)
    (hf : ∀ x e, f x = Except.error e → ∃ t, e = Thrown.appError t) :
    ∀ (xs : List α) (e : Thrown), forEach f xs = Except.error e → ∃ t, e = Thrown.appError t
  | [], e, h => by cases h
  | x :: rest, e, h => by
    unfold forEach at h
    cases hx : f x with
    | error e1 =>
      rw [hx] at h
      cases h
      exact hf x e hx
    | ok u =>
      rw [hx] at h
      exact forEach_classified f hf rest e h

theorem validateWebsite_classified (env : Builtins) (website : JVal) (e : Thrown)
    (h : validateWebsite env website = Except.error e) : ∃ t, e = Thrown.appError t := by
  unfold validateWebsite at h
  split at h
  · split at h
    · cases h; exact ⟨_, rfl⟩
    · split at h
      · cases h
      · cases h; exact ⟨_, rfl⟩
  · cases h; exact ⟨_, rfl⟩

theorem validateKeyFields_classified (v : JVal) (e : Thrown)
    (h : validateKeyFields v = Except.error e) : ∃ t, e = Thrown.appError t := by
  unfold validateKeyFields at h
  split at h
  · rename_i e1 h1
    cases h
    refine forEach_classified _ ?_ _ e h1
    intro name e2 h2
    split at h2
    · cases h2; exact ⟨_, rfl⟩
    · cases h2
  · refine forEach_classified _ ?_ _ e h
    intro name e2 h2
    split at h2
    · cases h2
    · cases h2
    · cases h2; exact ⟨_, rfl⟩

theorem validateStep_classified (step : JVal) (e : Thrown)
    (h : validateStep step = Except.error e) : ∃ t, e = Thrown.appError t := by
  unfold validateStep at h
  split at h
  · cases h; exact ⟨_, rfl⟩
  · split at h
    · rename_i e1 h1
      cases h
      exact validateKeyFields_classified step e h1
    · split at h
      · cases h
      · split at h
        · cases h; exact ⟨_, rfl⟩
        · cases h
      · cases h; exact ⟨_, rfl⟩

theorem validateMapping_classified (entry : Str × JVal) (e : Thrown)
    (h : validateMapping entry = Except.error e) : ∃ t, e = Thrown.appError t := by
  unfold validateMapping at h
  split at h
  · cases h; exact ⟨_, rfl⟩
  · split at h
    · exact forEach_classified _ validateStep_classified _ e h
    · split at h
      · cases h; exact ⟨_, rfl⟩
      · exact validateKeyFields_classified _ e h

/-- The outcomes of `validateConfig`: it returns `true`, or throws an
`AppError`, or throws the `TypeError` of `Object.entries(null)`, and this
last only on a config whose `mappings` is `null`. -/
theorem validateConfig_outcome (env : Builtins) (config : JVal) :
    validateConfig env config = Except.ok true ∨
    (∃ t, validateConfig env config = Except.error (Thrown.appError t)) ∨
    (validateConfig env config = Except.error Thrown.typeError ∧
      config.prop "mappings".toList = some JVal.null) := by
  unfold validateConfig
  split
  · exact Or.inr (Or.inl ⟨_, rfl⟩)
  · split
    · rename_i websites hweb
      cases hm : config.prop "mappings".toList with
      | none => exact Or.inr (Or.inl ⟨_, rfl⟩)
      | some mappings =>
        simp only []
        split
        · exact Or.inr (Or.inl ⟨_, rfl⟩)
        · cases hw : forEach (validateWebsite env) websites with
          | error e =>
            obtain ⟨t, rfl⟩ := forEach_classified _ (validateWebsite_classified env) _ e hw
            exact Or.inr (Or.inl ⟨t, rfl⟩)
          | ok u =>
            simp only []
            cases mappings with
            | null => exact Or.inr (Or.inr ⟨rfl, rfl⟩)
            | bool b => rename_i hty; exact absurd rfl hty
            | num n => rename_i hty; exact absurd rfl hty
            | str t => rename_i hty; exact absurd rfl hty
            | arr items =>
              simp only [objectEntries]
              cases hv : forEach validateMapping
                  (((List.range items.length).map (Nat.toDigits 10)).zip items) with
              | error e =>
                obtain ⟨t, rfl⟩ := forEach_classified _ validateMapping_classified _ e hv
                exact Or.inr (Or.inl ⟨t, rfl⟩)
              | ok u => exact Or.inl rfl
            | obj props =>
              simp only [objectEntries]
              cases hv : forEach validateMapping props with
              | error e =>
                obtain ⟨t, rfl⟩ := forEach_classified _ validateMapping_classified _ e hv
                exact Or.inr (Or.inl ⟨t, rfl⟩)
              | ok u => exact Or.inl rfl
    · exact Or.inr (Or.inl ⟨_, rfl⟩)

end Options

/-! ### What validation checks of a key record -/

namespace Options

/-- A `forEach` that returns ran its callback to the end on every item. -/
theorem forEach_ok {α : Type} (f : α → Except Thrown Unit) :
    ∀ (xs : List α) (u : Unit), forEach f xs = Except.ok u → ∀ x ∈ xs, f x = Except.ok ()
  | [], _, _ => by
    intro x hx
    cases hx
  | y :: rest, u, h => by
    unfold forEach at h
    cases hy : f y with
    | error e =>
      rw [hy] at h
      cases h
    | ok v =>
      rw [hy] at h
      intro x hx
      rcases List.mem_cons.mp hx with rfl | hx
      · exact hy
      · exact forEach_ok f rest u h x hx

theorem validateKeyFields_ok (v : JVal) (u : Unit) (h : validateKeyFields v = Except.ok u) :
    CheckedRecord v := by
  unfold validateKeyFields at h
  split at h
  · cases h
  · rename_i u1 h1
    refine ⟨?_, ?_⟩
    · intro name hname
      have h2 := forEach_ok _ _ u1 h1 name hname
      cases hp : v.hasProp name with
      | true => rfl
      | false =>
        simp only [hp, Bool.not_false, if_true] at h2
        cases h2
    · intro name hname x hx
      have h2 := forEach_ok _ _ u h name hname
      simp only [hx] at h2
      cases x with
      | bool b => exact ⟨b, rfl⟩
      | null => cases h2
      | num n => cases h2
      | str t => cases h2
      | arr items => cases h2
      | obj props => cases h2

theorem validateStep_ok (step : JVal) (u : Unit) (h : validateStep step = Except.ok u) :
    CheckedRecord step := by
  unfold validateStep at h
  split at h
  · cases h
  · split at h
    · cases h
    · rename_i u1 h1
      exact validateKeyFields_ok step u1 h1

/-- What `validateConfig` has checked of a config it accepts: every mapping
value that is an array has only steps with the four required fields and with
booleans for those of `ctrlKey`, `shiftKey`, `altKey` that are present, and
every other mapping value is such a record itself. -/
theorem validateConfig_checks_key_fields (env : Builtins) (config : JVal)
    (h : validateConfig env config = Except.ok true) :
    ∃ mappings entries, config.prop "mappings".toList = some mappings ∧
      objectEntries mappings = Except.ok entries ∧
      ∀ entry ∈ entries,
        (∀ steps, entry.2 = JVal.arr steps → ∀ step ∈ steps, CheckedRecord step) ∧
        ((∀ steps, entry.2 ≠ JVal.arr steps) → CheckedRecord entry.2) := by
  unfold validateConfig at h
  split at h
  · cases h
  · split at h
    · rename_i websites hweb
      cases hm : config.prop "mappings".toList with
      | none =>
        rw [hm] at h
        cases h
      | some mappings =>
        rw [hm] at h
        simp only [] at h
        split at h
        · cases h
        · split at h
          · cases h
          · split at h
            · cases h
            · rename_i entries hent
              split at h
              · cases h
              · rename_i u hall
                refine ⟨mappings, entries, rfl, hent, ?_⟩
                intro entry hentry
                have hv := forEach_ok _ _ u hall entry hentry
                unfold validateMapping at hv
                split at hv
                · cases hv
                · split at hv
                  · rename_i steps hsteps
                    refine ⟨?_, ?_⟩
                    · intro steps1 heq step hstep
                      rw [hsteps] at heq
                      cases heq
                      exact validateStep_ok step () (forEach_ok _ _ () hv step hstep)
                    · intro hne
                      exact absurd hsteps (hne steps)
                  · rename_i hnot
                    refine ⟨?_, ?_⟩
                    · intro steps heq
                      exact absurd heq (hnot steps)
                    · intro _
                      split at hv
                      · cases hv
                      · exact validateKeyFields_ok _ () hv
    · cases h

/-- C11, at the input where the code departs from it: a config whose
mapping table maps `A` to a record, and `B` to a sequence of one step, that
carry the four required fields and a `metaKey` that is the string `yes`.
`validateConfig` returns `true` on it: its check of the flags lists
`ctrlKey`, `shiftKey` and `altKey`, and not `metaKey`. -/
theorem validateConfig_accepts_string_metaKey (env : Builtins) :
    validateConfig env metaKeyStringConfig = Except.ok true ∧
    metaKeyStringRecord.prop "metaKey".toList = some (JVal.str "yes".toList) ∧
    metaKeyStringConfig.prop "mappings".toList =
      some (JVal.obj [("A".toList, metaKeyStringRecord),
                      ("B".toList, JVal.arr [metaKeyStringRecord])]) :=
  ⟨rfl, rfl, rfl⟩

end Options

/-! ### Saving -/

namespace Options

/-- The only value `validateConfig` returns is `true`. -/
theorem validateConfig_ok_true (env : Builtins) (config : JVal) (b : Bool)
    (h : validateConfig env config = Except.ok b) : b = true := by
  rcases validateConfig_outcome env config with h1 | ⟨t, h1⟩ | ⟨h1, _⟩
  · rw [h1] at h
    cases h
    rfl
  · rw [h1] at h
    cases h
  · rw [h1] at h
    cases h

theorem saveSettings_of_rejected (env : Builtins) (w : Bool) (s : Session)
    (h : validateConfig env (jsonCopy s.currentConfig) ≠ Except.ok true) :
    (saveSettings env w s).1 = s := by
  cases hv : validateConfig env (jsonCopy s.currentConfig) with
  | error e => simp only [saveSettings, hv]
  | ok b =>
    have hb := validateConfig_ok_true env _ b hv
    subst hb
    exact absurd hv h

theorem saveSettings_of_write_failure (env : Builtins) (s : Session) :
    (saveSettings env false s).1 = s := by
  cases hv : validateConfig env (jsonCopy s.currentConfig) with
  | error e => simp only [saveSettings, hv]
  | ok b => simp only [saveSettings, hv, Bool.false_eq_true, if_false]

theorem saveSettings_of_success (env : Builtins) (s : Session)
    (h : validateConfig env (jsonCopy s.currentConfig) = Except.ok true) :
    saveSettings env true s =
      ({ s with stored := some (jsonCopy s.currentConfig), configModified := false }, none) := by
  unfold saveSettings
  simp only [h, if_true]

/-- C12. For `saveSettings`, and for `autoSave` when the modified flag is
set (it then does what `saveSettings` does): when `validateConfig` rejects
the JSON copy of the current config, the store and the flag are as before;
when the write fails, the store and the flag are as before; a flag that was
set is cleared only if the config passed validation and the write succeeded;
and in that case the flag is cleared and the store holds the JSON copy of
the current config.  With the flag not set, `autoSave` does nothing. -/
theorem saveSettings_clears_flag_only_on_success (env : Builtins) (writeSucceeds : Bool)
    (s : Session) :
    (validateConfig env (jsonCopy s.currentConfig) ≠ Except.ok true →
      (saveSettings env writeSucceeds s).1.stored = s.stored ∧
      (saveSettings env writeSucceeds s).1.configModified = s.configModified) ∧
    (writeSucceeds = false →
      (saveSettings env writeSucceeds s).1.stored = s.stored ∧
      (saveSettings env writeSucceeds s).1.configModified = s.configModified) ∧
    (s.configModified = true → (saveSettings env writeSucceeds s).1.configModified = false →
      validateConfig env (jsonCopy s.currentConfig) = Except.ok true ∧ writeSucceeds = true) ∧
    (validateConfig env (jsonCopy s.currentConfig) = Except.ok true → writeSucceeds = true →
      (saveSettings env writeSucceeds s).1.configModified = false ∧
      (saveSettings env writeSucceeds s).1.stored = some (jsonCopy s.currentConfig)) ∧
    (s.configModified = true → autoSave env writeSucceeds s = saveSettings env writeSucceeds s) ∧
    (s.configModified = false → autoSave env writeSucceeds s = (s, none)) := by
  refine ⟨?_, ?_, ?_, ?_, ?_, ?_⟩
  · intro h
    rw [saveSettings_of_rejected env writeSucceeds s h]
    exact ⟨rfl, rfl⟩
  · intro h
    subst h
    rw [saveSettings_of_write_failure env s]
    exact ⟨rfl, rfl⟩
  · intro hset hclear
    by_cases hv : validateConfig env (jsonCopy s.currentConfig) = Except.ok true
    · refine ⟨hv, ?_⟩
      cases writeSucceeds with
      | true => rfl
      | false =>
        rw [saveSettings_of_write_failure env s, hset] at hclear
        cases hclear
    · rw [saveSettings_of_rejected env writeSucceeds s hv, hset] at hclear
      cases hclear
  · intro hv hw
    subst hw
    rw [saveSettings_of_success env s hv]
    exact ⟨rfl, rfl⟩
  · intro hset
    simp only [autoSave, saveSettings, hset, Bool.not_true, Bool.false_eq_true, if_false]
  · intro hunset
    simp only [autoSave, hunset, Bool.not_false, if_true]

/-- The witness of C12: the sample session holds a valid config and is
modified; a save with a working store clears the flag and stores the JSON
copy of the config, and the automatic save does the same. -/
theorem saveSettings_clears_flag_only_on_success_witness :
    (saveSettings sampleBuiltins true sampleSession).1.configModified = false ∧
    (saveSettings sampleBuiltins true sampleSession).1.stored =
      some (jsonCopy sampleSession.currentConfig) ∧
    autoSave sampleBuiltins true sampleSession = saveSettings sampleBuiltins true sampleSession :=
  ⟨((saveSettings_clears_flag_only_on_success sampleBuiltins true sampleSession).2.2.2.1
      rfl rfl).1,
   ((saveSettings_clears_flag_only_on_success sampleBuiltins true sampleSession).2.2.2.1
      rfl rfl).2,
   (saveSettings_clears_flag_only_on_success sampleBuiltins true sampleSession).2.2.2.2.1 rfl⟩

/-! ### Recovery -/

/-- C13, as stated, fails: the backup is a text `JSON.parse` throws on, and
the config in memory is invalid.  With a working store, `recoverFromError`
returns `false`: the config in memory is still the invalid one, which
`validateConfig` rejects, and nothing is persisted. -/
theorem recoverFromError_corrupt_backup :
    (recoverFromError sampleBuiltins true Backup.notParseable staleSession).2 = false ∧
    validateConfig sampleBuiltins
        (recoverFromError sampleBuiltins true Backup.notParseable staleSession).1.currentConfig =
      Except.error (Thrown.appError ErrorTypes.INVALID_CONFIG) ∧
    (recoverFromError sampleBuiltins true Backup.notParseable staleSession).1.stored = none ∧
    validateConfig sampleBuiltins defaultConfigJson = Except.ok true :=
  ⟨rfl, rfl, rfl, rfl⟩

/-- After `recoverFromError` on a backup that parses to a config
`validateConfig` accepts, the config in memory is that snapshot and the
function returns `true`; the store holds the JSON copy of the snapshot when
`validateConfig` accepts the copy, and is as it was when it rejects the
copy. -/
theorem recoverFromError_of_valid (env : Builtins) (s : Session) (config : JVal)
    (hv : validateConfig env config = Except.ok true) :
    (validateConfig env (jsonCopy config) = Except.ok true →
      recoverFromError env true (Backup.parsed config) s =
        ({ currentConfig := config, configModified := false,
           stored := some (jsonCopy config) }, true)) ∧
    (validateConfig env (jsonCopy config) ≠ Except.ok true →
      recoverFromError env true (Backup.parsed config) s =
        ({ s with currentConfig := config }, true)) := by
  refine ⟨?_, ?_⟩
  · intro hc
    simp only [recoverFromError, hv]
    rw [saveSettings_of_success env { s with currentConfig := config } hc]
  · intro hc
    simp only [recoverFromError, hv]
    rw [saveSettings_of_rejected env true { s with currentConfig := config } hc]

/-- A backup whose step delay overflowed to `Infinity`: `validateConfig`
accepts the snapshot, and rejects its JSON copy, in which the delay is
`null`; `recoverFromError` adopts the snapshot and returns `true`, and
nothing is persisted. -/
theorem recoverFromError_overflowing_delay :
    validateConfig sampleBuiltins overflowDelayConfig = Except.ok true ∧
    validateConfig sampleBuiltins (jsonCopy overflowDelayConfig) =
      Except.error (Thrown.appError ErrorTypes.INVALID_KEY_INFO) ∧
    (recoverFromError sampleBuiltins true (Backup.parsed overflowDelayConfig)
      staleSession).2 = true ∧
    (recoverFromError sampleBuiltins true (Backup.parsed overflowDelayConfig)
      staleSession).1.stored = none :=
  ⟨rfl, rfl, rfl, rfl⟩

/-- C13, amended: with a working store, after `recoverFromError` on a backup
that parses to a config that `validateConfig` accepts and that is its own
JSON copy (it holds no number that is not finite), the config in memory is
that snapshot, it is the value persisted to the store, and the function
returns `true`; on an absent backup the same holds of the empty default
config, which `validateConfig` accepts; on a backup that does not parse, or
parses to a config `validateConfig` rejects, the function returns `false`
and changes neither the config in memory nor the store. -/
theorem recoverFromError_spec (env : Builtins) (s : Session) :
    (∀ config, validateConfig env config = Except.ok true → jsonCopy config = config →
      recoverFromError env true (Backup.parsed config) s =
        ({ currentConfig := config, configModified := false, stored := some config }, true)) ∧
    (recoverFromError env true Backup.absent s =
        ({ currentConfig := defaultConfigJson, configModified := false,
           stored := some defaultConfigJson }, true) ∧
      validateConfig env defaultConfigJson = Except.ok true) ∧
    recoverFromError env true Backup.notParseable s = (s, false) ∧
    (∀ config, validateConfig env config ≠ Except.ok true →
      recoverFromError env true (Backup.parsed config) s = (s, false)) := by
  refine ⟨?_, ⟨?_, rfl⟩, rfl, ?_⟩
  · intro config hv hcopy
    have hc : validateConfig env (jsonCopy config) = Except.ok true := by
      rw [hcopy]
      exact hv
    rw [(recoverFromError_of_valid env s config hv).1 hc, hcopy]
  · simp only [recoverFromError]
    rw [saveSettings_of_success env { s with currentConfig := defaultConfigJson } rfl]
    rfl
  · intro config hv
    cases hc : validateConfig env config with
    | error e => simp only [recoverFromError, hc]
    | ok b =>
      have hb := validateConfig_ok_true env _ b hc
      subst hb
      exact absurd hc hv

/-- The witness of C13: the backup holds the valid config of the sample
session, and the session in memory is the stale one. -/
theorem recoverFromError_spec_witness :
    recoverFromError sampleBuiltins true (Backup.parsed sampleSession.currentConfig)
        staleSession =
      ({ currentConfig := sampleSession.currentConfig, configModified := false,
         stored := some sampleSession.currentConfig }, true) :=
  (recoverFromError_spec sampleBuiltins staleSession).1 sampleSession.currentConfig rfl rfl

end Options

/-! ### The delay of a step -/

namespace Options

/-- The delay `addSequenceStep` stores is never zero; it is the integer
`parseInt` reads from the text when that is not zero, negative ones
included, and 50 otherwise. -/
theorem stepDelayOfInput_eq (delayText : Str) :
    stepDelayOfInput delayText ≠ 0 ∧
    (∀ n, parseInt delayText = some n → n ≠ 0 → stepDelayOfInput delayText = n) ∧
    (parseInt delayText = none → stepDelayOfInput delayText = 50) ∧
    (parseInt delayText = some 0 → stepDelayOfInput delayText = 50) := by
  unfold stepDelayOfInput
  refine ⟨?_, ?_, ?_, ?_⟩
  · cases parseInt delayText with
    | none => decide
    | some n =>
      by_cases h : n = 0
      · simp [h]
      · simp [h]
  · intro n h hn
    simp [h, hn]
  · intro h
    simp [h]
  · intro h
    simp [h]

/-- C14, at the input where the code departs from it: with the text `-5` in
the delay input, `addSequenceStep` appends a step whose delay is -5;
`addSequenceMapping` commits the sequence to the config, and
`validateConfig` rejects the step and the config with the kind
`INVALID_KEY_INFO`. -/
theorem addSequenceStep_negative_delay :
    (addSequenceStep "-5".toList sampleSequenceEditor).currentSequence =
      [sampleStep (some (-5))] ∧
    validateStep (keyInfoJson (sampleStep (some (-5)))) =
      Except.error (Thrown.appError ErrorTypes.INVALID_KEY_INFO) ∧
    (addSequenceMapping sampleBuiltins "Win32".toList State.initial
        (addSequenceStep "-5".toList sampleSequenceEditor)).1.currentConfig.mappings =
      [("A".toList, Target.sequence [sampleStep (some (-5))])] ∧
    validateConfig sampleBuiltins
        (configJson (addSequenceMapping sampleBuiltins "Win32".toList State.initial
          (addSequenceStep "-5".toList sampleSequenceEditor)).1.currentConfig) =
      Except.error (Thrown.appError ErrorTypes.INVALID_KEY_INFO) := by
  refine ⟨by decide, rfl, by decide, rfl⟩

end Options

/-! ### The consistency check -/

namespace Options

theorem contains_append_singleton (acc : List Str) (x y : Str) :
    (acc ++ [x]).contains y = (acc.contains y || y == x) := by
  rw [Bool.eq_iff_iff]
  simp only [contains_iff_mem, Bool.or_eq_true, beq_iff_eq, List.mem_append, List.mem_singleton]

theorem foldl_unique_eq (l : List Str) :
    ∀ acc : List Str,
      l.foldl (fun set website => if set.contains website then set else set ++ [website]) acc =
        acc ++ (firstOccurrences l).filter fun y => !(acc.contains y) := by
  induction l with
  | nil => intro acc; simp [firstOccurrences]
  | cons x rest ih =>
    intro acc
    rw [List.foldl_cons]
    cases hx : acc.contains x with
    | true =>
      simp only [if_true]
      rw [ih acc, firstOccurrences, List.filter_cons]
      simp only [hx, Bool.not_true, Bool.false_eq_true, if_false, List.filter_filter]
      congr 1
      apply List.filter_congr
      intro y _
      cases hy : acc.contains y with
      | true => rfl
      | false =>
        have hne : (y == x) = false := by
          cases hyx : (y == x) with
          | false => rfl
          | true =>
            have e : y = x := by simpa using hyx
            rw [e, hx] at hy
            cases hy
        simp [hne]
    | false =>
      simp only [Bool.false_eq_true, if_false]
      rw [ih (acc ++ [x]), firstOccurrences, List.filter_cons]
      simp only [hx, Bool.not_false, if_true, List.filter_filter, List.append_assoc,
        List.singleton_append]
      congr 2
      apply List.filter_congr
      intro y _
      rw [contains_append_singleton]
      cases acc.contains y <;> cases (y == x) <;> rfl

theorem uniqueWebsites_eq_firstOccurrences (l : List Str) :
    uniqueWebsites l = firstOccurrences l := by
  unfold uniqueWebsites
  rw [foldl_unique_eq l []]
  simp

theorem mem_firstOccurrences (l : List Str) (y : Str) : y ∈ firstOccurrences l ↔ y ∈ l := by
  induction l with
  | nil => simp [firstOccurrences]
  | cons x rest ih =>
    simp only [firstOccurrences, List.mem_cons, List.mem_filter, ih, Bool.not_eq_true',
      beq_eq_false_iff_ne, ne_eq]
    constructor
    · rintro (h | ⟨h, _⟩)
      · exact Or.inl h
      · exact Or.inr h
    · rintro (h | h)
      · exact Or.inl h
      · by_cases e : y = x
        · exact Or.inl e
        · exact Or.inr ⟨h, e⟩

theorem nodup_firstOccurrences (l : List Str) : (firstOccurrences l).Nodup := by
  induction l with
  | nil => simp [firstOccurrences]
  | cons x rest ih =>
    rw [firstOccurrences, List.nodup_cons]
    refine ⟨?_, ih.filter _⟩
    simp [List.mem_filter]

theorem firstOccurrences_sublist (l : List Str) : (firstOccurrences l).Sublist l := by
  induction l with
  | nil => simp [firstOccurrences]
  | cons x rest ih =>
    rw [firstOccurrences]
    exact List.Sublist.cons₂ x ((List.filter_sublist _).trans ih)

theorem firstOccurrences_of_nodup (l : List Str) (h : l.Nodup) : firstOccurrences l = l := by
  induction l with
  | nil => rfl
  | cons x rest ih =>
    rw [List.nodup_cons] at h
    rw [firstOccurrences, ih h.2, List.filter_eq_self.mpr]
    intro y hy
    have : y ≠ x := fun e => h.1 (e ▸ hy)
    simp [this]

theorem firstOccurrences_length_eq_iff (l : List Str) :
    (firstOccurrences l).length = l.length ↔ l.Nodup := by
  constructor
  · intro h
    have e := (firstOccurrences_sublist l).eq_of_length h
    rw [← e]
    exact nodup_firstOccurrences l
  · intro h
    rw [firstOccurrences_of_nodup l h]

theorem dedupeWebsites_of_nodup (st : State) (h : st.currentConfig.websites.Nodup) :
    dedupeWebsites st = st := by
  unfold dedupeWebsites
  rw [uniqueWebsites_eq_firstOccurrences, firstOccurrences_of_nodup _ h]
  simp

theorem dedupeWebsites_of_duplicate (st : State) (h : ¬ st.currentConfig.websites.Nodup) :
    dedupeWebsites st =
      { st with
        currentConfig :=
          { st.currentConfig with websites := firstOccurrences st.currentConfig.websites },
        configModified := true } := by
  unfold dedupeWebsites
  rw [uniqueWebsites_eq_firstOccurrences]
  have hne : (firstOccurrences st.currentConfig.websites).length ≠
      st.currentConfig.websites.length :=
    fun e => h ((firstOccurrences_length_eq_iff _).mp e)
  simp [hne]

theorem dedupeWebsites_websites (st : State) :
    (dedupeWebsites st).currentConfig.websites = firstOccurrences st.currentConfig.websites := by
  by_cases h : st.currentConfig.websites.Nodup
  · rw [dedupeWebsites_of_nodup st h, firstOccurrences_of_nodup _ h]
  · rw [dedupeWebsites_of_duplicate st h]

theorem withoutEmptySource_idem (st : State) :
    withoutEmptySource (withoutEmptySource st) = withoutEmptySource st := by
  simp [withoutEmptySource, deleteProperty, List.filter_filter]

theorem foldl_dropInvalid (es : List (Str × Target)) :
    ∀ s : State,
      es.foldl
        (fun s entry =>
          if entry.1.isEmpty then
            { s with
              currentConfig :=
                { s.currentConfig with
                  mappings := deleteProperty s.currentConfig.mappings entry.1 },
              configModified := true }
          else s) s =
        if es.any (fun entry => entry.1.isEmpty) then withoutEmptySource s else s := by
  induction es with
  | nil => intro s; rfl
  | cons e rest ih =>
    intro s
    rw [List.foldl_cons, ih]
    cases he : e.1.isEmpty with
    | true =>
      have e0 : e.1 = [] := List.isEmpty_iff.mp he
      simp only [if_true, List.any_cons, he, Bool.true_or]
      rw [e0]
      show (if rest.any (fun entry => entry.1.isEmpty) = true then
          withoutEmptySource (withoutEmptySource s) else withoutEmptySource s) = _
      rw [withoutEmptySource_idem]
      simp
    | false =>
      simp only [Bool.false_eq_true, if_false, List.any_cons, he, Bool.false_or]

theorem dropInvalidMappings_eq (st : State) :
    dropInvalidMappings st =
      if st.currentConfig.mappings.any (fun entry => entry.1.isEmpty) then withoutEmptySource st
      else st :=
  foldl_dropInvalid st.currentConfig.mappings st

theorem dropInvalidMappings_websites (st : State) :
    (dropInvalidMappings st).currentConfig.websites = st.currentConfig.websites := by
  rw [dropInvalidMappings_eq]
  split <;> rfl

theorem dropInvalidMappings_modified (st : State) (h : st.configModified = true) :
    (dropInvalidMappings st).configModified = true := by
  rw [dropInvalidMappings_eq]
  split
  · rfl
  · exact h

theorem dropInvalidMappings_idem (st : State) :
    dropInvalidMappings (dropInvalidMappings st) = dropInvalidMappings st := by
  have hclean : (withoutEmptySource st).currentConfig.mappings.any
      (fun entry => entry.1.isEmpty) = false := by
    simp [withoutEmptySource, deleteProperty, List.any_eq_false, List.mem_filter]
  rw [dropInvalidMappings_eq st]
  split
  · rw [dropInvalidMappings_eq, hclean]
    simp
  · rename_i h
    rw [dropInvalidMappings_eq]
    simp [h]

/-- C15, as stated, fails: the site list `a.com` has no duplicate and the
mapping table has an entry with an empty source; `checkConfigConsistency`
drops that entry and marks the config modified, with the site list as it
was. -/
theorem checkConfigConsistency_marks_without_duplicate :
    emptySourceState.currentConfig.websites.Nodup ∧
    emptySourceState.configModified = false ∧
    (checkConfigConsistency emptySourceState).1.configModified = true ∧
    (checkConfigConsistency emptySourceState).1.currentConfig.websites =
      emptySourceState.currentConfig.websites ∧
    (checkConfigConsistency emptySourceState).1.currentConfig.mappings = [] := by
  decide

/-- C15, amended.  After `checkConfigConsistency` the site list has no
duplicates, has the entries of the original list and no other, and is the
list of the distinct entries of the original in the order of their first
occurrence.  The list is changed only when the original had a duplicate, and
then the config is marked modified; the config is marked modified only when
the original had a duplicate or the mapping table had an entry with an empty
source, which the check drops; with neither, the state is left as it was.  A
second check changes nothing. -/
theorem checkConfigConsistency_dedupes (st : State) :
    (checkConfigConsistency st).1.currentConfig.websites.Nodup ∧
    (∀ w, w ∈ (checkConfigConsistency st).1.currentConfig.websites ↔
      w ∈ st.currentConfig.websites) ∧
    (checkConfigConsistency st).1.currentConfig.websites =
      firstOccurrences st.currentConfig.websites ∧
    ((checkConfigConsistency st).1.currentConfig.websites ≠ st.currentConfig.websites →
      ¬ st.currentConfig.websites.Nodup) ∧
    (¬ st.currentConfig.websites.Nodup →
      (checkConfigConsistency st).1.configModified = true) ∧
    (st.currentConfig.websites.Nodup → dedupeWebsites st = st) ∧
    (st.currentConfig.websites.Nodup →
      (∀ entry ∈ st.currentConfig.mappings, entry.1.isEmpty = false) →
      (checkConfigConsistency st).1 = st) ∧
    (st.configModified = false → (checkConfigConsistency st).1.configModified = true →
      ¬ st.currentConfig.websites.Nodup ∨
      ∃ entry ∈ st.currentConfig.mappings, entry.1.isEmpty = true) ∧
    checkConfigConsistency (checkConfigConsistency st).1 = checkConfigConsistency st := by
  have hweb : (checkConfigConsistency st).1.currentConfig.websites =
      firstOccurrences st.currentConfig.websites := by
    show (dropInvalidMappings (dedupeWebsites st)).currentConfig.websites = _
    rw [dropInvalidMappings_websites, dedupeWebsites_websites]
  have hsame : st.currentConfig.websites.Nodup →
      (∀ entry ∈ st.currentConfig.mappings, entry.1.isEmpty = false) →
      (checkConfigConsistency st).1 = st := by
    intro hnodup hclean
    show dropInvalidMappings (dedupeWebsites st) = st
    rw [dedupeWebsites_of_nodup st hnodup, dropInvalidMappings_eq]
    have hany : st.currentConfig.mappings.any (fun entry => entry.1.isEmpty) = false := by
      rw [List.any_eq_false]
      intro entry hentry
      simp [hclean entry hentry]
    simp [hany]
  refine ⟨?_, ?_, hweb, ?_, ?_, dedupeWebsites_of_nodup st, hsame, ?_, ?_⟩
  · rw [hweb]
    exact nodup_firstOccurrences _
  · intro w
    rw [hweb]
    exact mem_firstOccurrences _ w
  · intro hne hnodup
    rw [hweb, firstOccurrences_of_nodup _ hnodup] at hne
    exact hne rfl
  · intro hdup
    show (dropInvalidMappings (dedupeWebsites st)).configModified = true
    apply dropInvalidMappings_modified
    rw [dedupeWebsites_of_duplicate st hdup]
  · intro hunset hset
    by_cases hnodup : st.currentConfig.websites.Nodup
    · right
      by_contra hnone
      have hclean : ∀ entry ∈ st.currentConfig.mappings, entry.1.isEmpty = false := by
        intro entry hentry
        cases he : entry.1.isEmpty with
        | false => rfl
        | true => exact absurd ⟨entry, hentry, he⟩ hnone
      rw [hsame hnodup hclean, hunset] at hset
      cases hset
    · exact Or.inl hnodup
  · have hnodup : (dropInvalidMappings (dedupeWebsites st)).currentConfig.websites.Nodup := by
      rw [dropInvalidMappings_websites, dedupeWebsites_websites]
      exact nodup_firstOccurrences _
    show (dropInvalidMappings (dedupeWebsites (dropInvalidMappings (dedupeWebsites st))), true) =
      (dropInvalidMappings (dedupeWebsites st), true)
    rw [dedupeWebsites_of_nodup _ hnodup, dropInvalidMappings_idem]

/-- The witness of C15: the site list `a.com, b.com, a.com, c.com, b.com`
becomes `a.com, b.com, c.com`, the config is marked modified, and a second
check changes nothing. -/
theorem checkConfigConsistency_dedupes_witness :
    (checkConfigConsistency duplicateSitesState).1.currentConfig.websites =
      ["a.com".toList, "b.com".toList, "c.com".toList] ∧
    (checkConfigConsistency duplicateSitesState).1.configModified = true ∧
    checkConfigConsistency (checkConfigConsistency duplicateSitesState).1 =
      checkConfigConsistency duplicateSitesState :=
  ⟨(checkConfigConsistency_dedupes duplicateSitesState).2.2.1.trans (by decide),
   (checkConfigConsistency_dedupes duplicateSitesState).2.2.2.2.1 (by decide),
   (checkConfigConsistency_dedupes duplicateSitesState).2.2.2.2.2.2.2.2⟩

end Options

end KeymapExtension
